import Mathlib

set_option maxHeartbeats 1000000
set_option maxRecDepth 4096

/- Verification development for the analysis request coordinator of the
   lingo server: the per-conversation result cache with TTL expiry and
   capacity eviction, the in-flight request coalescing registry, recency
   tracking, the background batch queue, and the retry/backoff policy.
   Definitions are shallow embeddings of `server/src/session-cache.ts`,
   `server/src/analyzer.ts` and the `/prompt` handler of
   `server/src/index.ts`. -/

namespace Lingo

/-- Association list lookup: first entry whose key matches. -/
def lookupList {α β : Type} [DecidableEq α] : List (α × β) → α → Option β
  | [], _ => none
  | e :: es, k => if e.1 = k then some e.2 else lookupList es k

/-- JavaScript `Map.prototype.set`: replace in place when the key is present
(keeping insertion order), otherwise append at the end. -/
def setList {α β : Type} [DecidableEq α] : List (α × β) → α → β → List (α × β)
  | [], k, v => [(k, v)]
  | e :: es, k, v => if e.1 = k then (k, v) :: es else e :: setList es k v

/-- JavaScript `Map.prototype.delete`: remove the entry with the given key. -/
def deleteList {α β : Type} [DecidableEq α] : List (α × β) → α → List (α × β)
  | [], _ => []
  | e :: es, k => if e.1 = k then deleteList es k else e :: deleteList es k

/-- A map with JavaScript `Map` semantics: keys are kept in insertion order,
`set` of an existing key updates in place, iteration follows insertion order. -/
structure JsMap (α β : Type) where
  entries : List (α × β)
deriving DecidableEq

namespace JsMap

variable {α β : Type} [DecidableEq α]

def empty : JsMap α β := ⟨[]⟩

def get (m : JsMap α β) (k : α) : Option β := lookupList m.entries k

def set (m : JsMap α β) (k : α) (v : β) : JsMap α β := ⟨setList m.entries k v⟩

def delete (m : JsMap α β) (k : α) : JsMap α β := ⟨deleteList m.entries k⟩

def size (m : JsMap α β) : Nat := m.entries.length

def keysList (m : JsMap α β) : List α := m.entries.map Prod.fst

def containsKey (m : JsMap α β) (k : α) : Bool := (m.get k).isSome

/-- Well-formedness: keys are pairwise distinct (true of every JS `Map`). -/
def WF (m : JsMap α β) : Prop := m.keysList.Nodup

end JsMap

section MapLemmas

variable {α β : Type} [DecidableEq α]

theorem lookupList_setList_self (l : List (α × β)) (k : α) (v : β) :
    lookupList (setList l k v) k = some v := by
  induction l with
  | nil => simp [setList, lookupList]
  | cons e es ih =>
    by_cases h : e.1 = k
    · simp [setList, h, lookupList]
    · simp [setList, h, lookupList, ih]

theorem lookupList_setList_ne (l : List (α × β)) (k k' : α) (v : β) (h : k' ≠ k) :
    lookupList (setList l k v) k' = lookupList l k' := by
  induction l with
  | nil => simp [setList, lookupList, Ne.symm h]
  | cons e es ih =>
    by_cases he : e.1 = k
    · subst he
      simp [setList, lookupList, Ne.symm h]
    · by_cases he' : e.1 = k'
      · subst he'
        simp [setList, he, lookupList]
      · simp [setList, he, lookupList, he', ih]

theorem lookupList_deleteList_self (l : List (α × β)) (k : α) :
    lookupList (deleteList l k) k = none := by
  induction l with
  | nil => simp [deleteList, lookupList]
  | cons e es ih =>
    by_cases h : e.1 = k
    · simp [deleteList, h, ih]
    · simp [deleteList, h, lookupList, ih]

theorem lookupList_deleteList_ne (l : List (α × β)) (k k' : α) (h : k' ≠ k) :
    lookupList (deleteList l k) k' = lookupList l k' := by
  induction l with
  | nil => simp [deleteList]
  | cons e es ih =>
    by_cases he : e.1 = k
    · subst he
      by_cases he' : e.1 = k'
      · exact absurd he' h.symm
      · simp [deleteList, lookupList, he', ih]
    · simp [deleteList, he, lookupList, ih]

theorem length_setList (l : List (α × β)) (k : α) (v : β) :
    (setList l k v).length = if (lookupList l k).isSome then l.length else l.length + 1 := by
  induction l with
  | nil => simp [setList, lookupList]
  | cons e es ih =>
    by_cases h : e.1 = k
    · simp [setList, h, lookupList]
    · simp only [setList, h, if_false, lookupList, List.length_cons, ih]
      by_cases hl : (lookupList es k).isSome <;> simp [hl]

theorem length_setList_le (l : List (α × β)) (k : α) (v : β) :
    (setList l k v).length ≤ l.length + 1 := by
  rw [length_setList]
  by_cases h : (lookupList l k).isSome <;> simp [h]

theorem length_deleteList_le (l : List (α × β)) (k : α) :
    (deleteList l k).length ≤ l.length := by
  induction l with
  | nil => simp [deleteList]
  | cons e es ih =>
    by_cases h : e.1 = k
    · simp only [deleteList, h, if_true, List.length_cons]
      omega
    · simp only [deleteList, h, if_false, List.length_cons]
      omega

theorem keysList_map_setList (l : List (α × β)) (k : α) (v : β) :
    (setList l k v).map Prod.fst =
      if (lookupList l k).isSome then l.map Prod.fst else l.map Prod.fst ++ [k] := by
  induction l with
  | nil => simp [setList, lookupList]
  | cons e es ih =>
    by_cases h : e.1 = k
    · simp [setList, h, lookupList]
    · simp only [setList, h, if_false, lookupList, List.map_cons, ih]
      by_cases hl : (lookupList es k).isSome <;> simp [hl]

theorem lookupList_isSome_iff_mem (l : List (α × β)) (k : α) :
    (lookupList l k).isSome ↔ k ∈ l.map Prod.fst := by
  induction l with
  | nil => simp [lookupList]
  | cons e es ih =>
    by_cases h : e.1 = k
    · simp [lookupList, h]
    · simp [lookupList, h, ih, Ne.symm h]

theorem length_deleteList_add_count (l : List (α × β)) (k : α) :
    (deleteList l k).length + (l.map Prod.fst).count k = l.length := by
  induction l with
  | nil => simp [deleteList]
  | cons e es ih =>
    by_cases h : e.1 = k
    · simp only [deleteList, h, if_true, List.map_cons, List.count_cons_self,
        List.length_cons]
      omega
    · simp only [deleteList, h, if_false, List.map_cons, List.length_cons]
      rw [List.count_cons_of_ne (by exact fun hk => h hk.symm)]
      omega

theorem length_deleteList_of_nodup_mem (l : List (α × β)) (k : α)
    (hnd : (l.map Prod.fst).Nodup) (hmem : k ∈ l.map Prod.fst) :
    (deleteList l k).length + 1 = l.length := by
  have hc := length_deleteList_add_count l k
  have h1 : (l.map Prod.fst).count k ≤ 1 := List.nodup_iff_count_le_one.mp hnd k
  have h2 : 0 < (l.map Prod.fst).count k := List.count_pos_iff.mpr hmem
  omega

theorem JsMap.get_set_self (m : JsMap α β) (k : α) (v : β) :
    (m.set k v).get k = some v :=
  lookupList_setList_self m.entries k v

theorem JsMap.get_set_ne (m : JsMap α β) (k k' : α) (v : β) (h : k' ≠ k) :
    (m.set k v).get k' = m.get k' :=
  lookupList_setList_ne m.entries k k' v h

theorem JsMap.get_delete_self (m : JsMap α β) (k : α) :
    (m.delete k).get k = none :=
  lookupList_deleteList_self m.entries k

theorem JsMap.get_delete_ne (m : JsMap α β) (k k' : α) (h : k' ≠ k) :
    (m.delete k).get k' = m.get k' :=
  lookupList_deleteList_ne m.entries k k' h

theorem JsMap.size_set_le (m : JsMap α β) (k : α) (v : β) :
    (m.set k v).size ≤ m.size + 1 :=
  length_setList_le m.entries k v

theorem JsMap.get_empty (k : α) : (JsMap.empty : JsMap α β).get k = none := rfl

end MapLemmas

/- ===================== Data model (session-cache.ts) ===================== -/

/-- `AnalysisResult` from `server/src/analyzer.ts`: the outcome of one
analysis call.  `correction` and `alternative` are nullable strings. -/
structure AnalysisResult where
  skip : Bool
  hasCorrection : Bool
  correction : Option String
  explanation : String
  alternative : Option String
  significant : Bool
  originalPrompt : String
deriving DecidableEq

/-- `CachedResult` from `server/src/session-cache.ts`. -/
structure CachedResult where
  result : AnalysisResult
  timestamp : Nat
deriving DecidableEq

/-- `SessionData` from `server/src/session-cache.ts`: per-conversation cache
map, in-flight map (promise handles are modelled by numeric ids), and the
recency list (newest first). -/
structure SessionData where
  cache : JsMap String CachedResult
  inFlight : JsMap String Nat
  recentPrompts : List String
deriving DecidableEq

/-- The module-level registries of `session-cache.ts`: `sessions` and
`sessionLastActivity`, both keyed by session id. -/
structure GlobalState where
  sessions : JsMap String SessionData
  sessionLastActivity : JsMap String Nat
deriving DecidableEq

def emptyGlobalState : GlobalState := ⟨JsMap.empty, JsMap.empty⟩

def emptySession : SessionData := ⟨JsMap.empty, JsMap.empty, []⟩

/-- `CACHE_TTL_MS = 5 * 60 * 1000`. -/
def CACHE_TTL_MS : Nat := 5 * 60 * 1000

/-- `MAX_RECENT_PROMPTS = 5`. -/
def MAX_RECENT_PROMPTS : Nat := 5

/-- `MAX_CACHE_SIZE_PER_SESSION = 100`. -/
def MAX_CACHE_SIZE_PER_SESSION : Nat := 100

/-- `SESSION_MAX_AGE_MS = 30 * 60 * 1000`. -/
def SESSION_MAX_AGE_MS : Nat := 30 * 60 * 1000

/-- `Math.ceil(MAX_CACHE_SIZE_PER_SESSION * 0.1)`: the float product
`100 * 0.1` evaluates to exactly `10.0` in IEEE double arithmetic, so the
eviction count is 10. -/
def entriesToRemove : Nat := 10

def setSession (g : GlobalState) (sid : String) (s : SessionData) : GlobalState :=
  { g with sessions := g.sessions.set sid s }

/-- `getOrCreateSession`: fetch-or-create the session and unconditionally
refresh its last-activity timestamp (`Date.now()` is the `now` argument). -/
def getOrCreateSession (g : GlobalState) (sid : String) (now : Nat) :
    SessionData × GlobalState :=
  let (s, sessions1) :=
    match g.sessions.get sid with
    | some s => (s, g.sessions)
    | none => (emptySession, g.sessions.set sid emptySession)
  (s, { sessions := sessions1, sessionLastActivity := g.sessionLastActivity.set sid now })

/-- `getCachedResult`: TTL-checked lookup.  An entry whose age exceeds
`CACHE_TTL_MS` is lazily deleted and reported as absent.  Returns the
result (if any) together with the possibly-updated state. -/
def getCachedResult (g : GlobalState) (sid prompt : String) (now : Nat) :
    Option AnalysisResult × GlobalState :=
  match g.sessions.get sid with
  | none => (none, g)
  | some s =>
    match s.cache.get prompt with
    | none => (none, g)
    | some cached =>
      if now - cached.timestamp > CACHE_TTL_MS then
        (none, setSession g sid { s with cache := s.cache.delete prompt })
      else
        (some cached.result, g)

/-- The synthetic "skip" result inserted for a corrected text
(`session-cache.ts`, `cacheResult`). -/
def syntheticSkipResult (corrected : String) : AnalysisResult :=
  { skip := true
    hasCorrection := false
    correction := none
    explanation := ""
    alternative := none
    significant := false
    originalPrompt := corrected }

/-- The eviction loop of `cacheResult`: take `entriesToRemove` keys from the
(live) key iterator in insertion order and delete each one; the guard
`if (key)` skips a JS-falsy key, i.e. the empty string. -/
def evictOldest (m : JsMap String CachedResult) : JsMap String CachedResult :=
  (m.keysList.take entriesToRemove).foldl
    (fun acc k => if k = "" then acc else acc.delete k) m

/-- The tail of `cacheResult` ("if there is a correction, cache the
corrected text as skip"): when the result carries a JS-truthy (non-null,
non-empty) correction, insert a synthetic "skip" entry keyed by the
corrected text. -/
def cacheCorrectedText (cache2 : JsMap String CachedResult) (result : AnalysisResult)
    (now : Nat) : JsMap String CachedResult :=
  match result.correction with
  | some corrected =>
    if result.hasCorrection ∧ corrected ≠ "" then
      cache2.set corrected ⟨syntheticSkipResult corrected, now⟩
    else cache2
  | none => cache2

/-- The capacity guard of `cacheResult` ("enforce max cache size by
removing oldest entries if needed"): evict the oldest ~10% iff the cache
has reached `MAX_CACHE_SIZE_PER_SESSION`. -/
def cacheBeforeInsert (cache : JsMap String CachedResult) : JsMap String CachedResult :=
  if cache.size ≥ MAX_CACHE_SIZE_PER_SESSION then evictOldest cache else cache

/-- `cacheResult`: evict the oldest ~10% when the per-session cache is at
capacity, insert the entry, and, when the result carries a (JS-truthy, i.e.
non-null and non-empty) correction, additionally insert a synthetic "skip"
entry keyed by the corrected text. -/
def cacheResult (g : GlobalState) (sid prompt : String) (result : AnalysisResult)
    (now : Nat) : GlobalState :=
  let (s, g1) := getOrCreateSession g sid now
  let cache2 := (cacheBeforeInsert s.cache).set prompt ⟨result, now⟩
  setSession g1 sid { s with cache := cacheCorrectedText cache2 result now }

/-- `getInFlightRequest`: read-only lookup of the in-flight promise handle. -/
def getInFlightRequest (g : GlobalState) (sid prompt : String) : Option Nat :=
  match g.sessions.get sid with
  | none => none
  | some s => s.inFlight.get prompt

/-- `setInFlightRequest`: register an in-flight handle (creating the session
and refreshing its last-activity timestamp via `getOrCreateSession`). -/
def setInFlightRequest (g : GlobalState) (sid prompt : String) (h now : Nat) :
    GlobalState :=
  let (s, g1) := getOrCreateSession g sid now
  setSession g1 sid { s with inFlight := s.inFlight.set prompt h }

/-- `clearInFlightRequest`: remove the in-flight entry (no-op when the
session does not exist). -/
def clearInFlightRequest (g : GlobalState) (sid prompt : String) : GlobalState :=
  match g.sessions.get sid with
  | none => g
  | some s => setSession g sid { s with inFlight := s.inFlight.delete prompt }

/-- `addRecentPrompt`: push the corrected text when it is JS-truthy
(`correctedPrompt || prompt`), suppress a duplicate of the current head,
and trim to the most recent `MAX_RECENT_PROMPTS` entries. -/
def addRecentPrompt (g : GlobalState) (sid prompt : String)
    (correctedPrompt : Option String) (now : Nat) : GlobalState :=
  let (s, g1) := getOrCreateSession g sid now
  let textToAdd :=
    match correctedPrompt with
    | some c => if c = "" then prompt else c
    | none => prompt
  if s.recentPrompts.head? = some textToAdd then g1
  else
    let rp := textToAdd :: s.recentPrompts
    let rp1 := if rp.length > MAX_RECENT_PROMPTS then rp.dropLast else rp
    setSession g1 sid { s with recentPrompts := rp1 }

/-- `getRecentPrompts`: read-only; the `if (excludePrompt)` truthiness check
means an empty-string exclusion filters nothing. -/
def getRecentPrompts (g : GlobalState) (sid : String)
    (excludePrompt : Option String) : List String :=
  match g.sessions.get sid with
  | none => []
  | some s =>
    match excludePrompt with
    | some e => if e = "" then s.recentPrompts else s.recentPrompts.filter (· ≠ e)
    | none => s.recentPrompts

/-- `cleanupSessions`: drop every session whose last activity is older than
`SESSION_MAX_AGE_MS`. -/
def cleanupSessions (g : GlobalState) (now : Nat) : GlobalState :=
  let expired : String → Bool := fun sid =>
    match g.sessionLastActivity.get sid with
    | some la => now - la > SESSION_MAX_AGE_MS
    | none => false
  { sessions := ⟨g.sessions.entries.filter (fun e => ¬ expired e.1)⟩
    sessionLastActivity :=
      ⟨g.sessionLastActivity.entries.filter (fun e => ¬ (now - e.2 > SESSION_MAX_AGE_MS))⟩ }

/- ===================== Analyzer (analyzer.ts) ===================== -/

/-- The regex `\x7b[\s\S]*\x7d` of `executeAnalysis` applied to the raw
response text: the leftmost-longest match runs from the first opening brace
to the last closing brace, provided a closing brace follows the first
opening brace. -/
def jsonMatchChars (s : List Char) : Option (List Char) :=
  let t := s.dropWhile (fun c => ¬ c = '{')
  let u := (t.reverse.dropWhile (fun c => ¬ c = '}')).reverse
  if 2 ≤ u.length then some u else none

def jsonMatch (s : String) : Option String :=
  (jsonMatchChars s.data).map (fun l => String.mk l)

/-- The shape `Partial<AnalysisResult> & \x7b skip?: boolean \x7d` that
`JSON.parse` produces in `executeAnalysis`: every field may be absent. -/
structure ParsedPayload where
  skip : Option Bool
  hasCorrection : Option Bool
  correction : Option String
  explanation : Option String
  alternative : Option String
  significant : Option Bool
deriving DecidableEq

/-- The `\x7b"skip": true\x7d` return value of `executeAnalysis`. -/
def skipAnalysisResult (prompt : String) : AnalysisResult :=
  { skip := true
    hasCorrection := false
    correction := none
    explanation := ""
    alternative := none
    significant := false
    originalPrompt := prompt }

/-- The fallback value `executeAnalysis` returns when the response carries
no parseable JSON ("Failed to parse, return default"). -/
def parseFailFallback (prompt : String) : AnalysisResult :=
  { skip := false
    hasCorrection := false
    correction := none
    explanation := "Failed to analyze the text."
    alternative := none
    significant := false
    originalPrompt := prompt }

/-- The response-interpretation tail of `executeAnalysis`: extract the JSON
substring, parse it (`JSON.parse` is the external collaborator `parseJson`;
a parse exception is modelled as `none`), honour a truthy `skip`, default
the remaining fields, and fall back to `parseFailFallback` by normal return
when no JSON is found or parsing throws. -/
def executeAnalysisOutcome (parseJson : String → Option ParsedPayload)
    (resultText prompt : String) : AnalysisResult :=
  match jsonMatch resultText with
  | some matched =>
    match parseJson matched with
    | some parsed =>
      if parsed.skip = some true then
        skipAnalysisResult prompt
      else
        { skip := false
          hasCorrection := parsed.hasCorrection.getD false
          correction := parsed.correction
          explanation := parsed.explanation.getD ""
          alternative := parsed.alternative
          significant := parsed.significant.getD false
          originalPrompt := prompt }
    | none => parseFailFallback prompt
  | none => parseFailFallback prompt

/-- Observable run of `withRetry`: final result, the backoff delays slept
(in order), and the number of attempts made. -/
structure RetryRun (ε α : Type) where
  result : Except ε α
  delays : List Nat
  attempts : Nat

/-- The loop of `withRetry` (`for attempt = 0..maxRetries`), starting at a
given attempt with the delays slept so far; `remaining` counts the retries
still allowed (`maxRetries - attempt`), so the `attempt < maxRetries` guard
of the source is `remaining > 0`.  The delay before the next attempt is
`min(baseDelayMs * 2 ^ attempt, maxDelayMs)`. -/
def withRetryGo (fn : Nat → Except ε α) (baseDelayMs maxDelayMs : Nat) :
    Nat → Nat → List Nat → RetryRun ε α
  | remaining, attempt, acc =>
    match fn attempt with
    | .ok v => ⟨.ok v, acc, attempt + 1⟩
    | .error e =>
      match remaining with
      | 0 => ⟨.error e, acc, attempt + 1⟩
      | r + 1 =>
        withRetryGo fn baseDelayMs maxDelayMs r (attempt + 1)
          (acc ++ [min (baseDelayMs * 2 ^ attempt) maxDelayMs])

/-- `withRetry(fn, \x7bmaxRetries, baseDelayMs, maxDelayMs\x7d)`: attempt
`fn` up to `maxRetries + 1` times with full exponential backoff, no jitter.
`fn i` is the outcome of the `i`-th invocation of the wrapped operation. -/
def withRetryRun (fn : Nat → Except ε α) (maxRetries baseDelayMs maxDelayMs : Nat) :
    RetryRun ε α :=
  withRetryGo fn baseDelayMs maxDelayMs maxRetries 0 []

/-- `analyzePrompt`: `withRetry(() => executeAnalysis(...), \x7bmaxRetries:
2, baseDelayMs: 500\x7d)` (the `maxDelayMs` default is 10000).  `upstream i`
is the raw text of the `i`-th upstream call, or a thrown transient error. -/
def analyzePromptModel (parseJson : String → Option ParsedPayload)
    (upstream : Nat → Except String String) (prompt : String) :
    RetryRun String AnalysisResult :=
  withRetryRun
    (fun attempt => (upstream attempt).map
      (fun t => executeAnalysisOutcome parseJson t prompt))
    2 500 10000

/- ===================== Background queue (analyzer.ts) ===================== -/

/-- `QueuedPrompt`.  Distinct queued items are modelled as distinct values
(each HTTP request builds a fresh object, so JS reference equality agrees
with value equality for distinct items). -/
structure QueuedPrompt where
  prompt : String
  timestamp : String
  session_id : String
  cwd : String
  project_dir : String
deriving DecidableEq

/-- The in-progress `processQueue` run: the popped batch
(`analysisQueue.splice(0, batchSize)`) and the position `idx` of the item
whose `await analyzePrompt(record)` the loop is currently suspended at
(items `0..idx` have been attempted). -/
structure BatchRun where
  batch : List QueuedPrompt
  idx : Nat
deriving DecidableEq

/-- State of the background scheduler of `analyzer.ts`: the intake queue
`analysisQueue`, the `shutdownRequested` flag, the in-progress
`processQueue` run (`none` when no batch is running; `isProcessing` is its
`isSome`), whether `currentProcessingPromise` currently holds the live
(unresolved) promise of that run — as opposed to `null` or an
already-resolved promise, either of which `waitForQueueDrain` awaits
without blocking on batch progress — and the list of items attempted so
far, recorded for accounting. -/
structure QState where
  queue : List QueuedPrompt
  shutdown : Bool
  run : Option BatchRun
  cppLive : Bool
  attempted : List QueuedPrompt
deriving DecidableEq

/-- Scheduler events: a timer tick running
`currentProcessingPromise = processQueue()`; the settlement of the
`await analyzePrompt(record)` the in-progress run is suspended at, after
which the loop advances; and `stopBackgroundProcessor()`. -/
inductive QStep
  | tick
  | item
  | stop
deriving DecidableEq

/-- One scheduler event, from `analyzer.ts` (both revisions share
`processQueue`; only when ticks may fire differs — see `rev2ok`).

`tick` runs `currentProcessingPromise = processQueue()`.  If a run is in
progress, `processQueue()` returns at the `isProcessing` guard and the
assignment overwrites `currentProcessingPromise` with that call's
already-resolved promise.  Otherwise the synchronous prefix of
`processQueue` pops the batch (`analysisQueue.splice(0, batchSize)`); with
a non-empty batch it passes the first shutdown check (`shutdownRequested`
is false here), attempts the first item and suspends at its `await`, and
the assignment stores the live promise; with an empty batch the body
completes at once (its `finally` nulls the stored promise).  Since
`stopBackgroundProcessor` clears the timer in the same synchronous call
that sets `shutdownRequested`, no tick fires in a shutdown state.

`item` resumes the suspended loop: the `for` iterator yields the next
record, whose shutdown check either pushes
`batch.slice(batch.indexOf(record))` back onto the front of the queue and
breaks, or — `shutdownRequested` still false — attempts the record and
suspends at its `await`; when the batch is exhausted the loop ends.  In
every ending case the `finally` clears `isProcessing` and nulls
`currentProcessingPromise`, resolving the run's promise.

`stop` is `stopBackgroundProcessor()`: sets `shutdownRequested` and
clears the timer, touching neither the queue nor the stored promise. -/
def applyQStep (b : Nat) (s : QState) : QStep → QState
  | QStep.tick =>
    if s.shutdown then s
    else if s.run.isSome then { s with cppLive := false }
    else
      match s.queue.take b with
      | [] => { s with cppLive := false }
      | record :: _ =>
        { s with
          queue := s.queue.drop b
          run := some ⟨s.queue.take b, 0⟩
          cppLive := true
          attempted := s.attempted ++ [record] }
  | QStep.item =>
    match s.run with
    | none => s
    | some r =>
      match r.batch.drop (r.idx + 1) with
      | [] => { s with run := none, cppLive := false }
      | record :: _ =>
        if s.shutdown then
          { s with
            queue := r.batch.drop (r.batch.indexOf record) ++ s.queue
            run := none
            cppLive := false }
        else
          { s with
            run := some ⟨r.batch, r.idx + 1⟩
            attempted := s.attempted ++ [record] }
  | QStep.stop => { s with shutdown := true }

/-- Run a sequence of scheduler events. -/
def applyQTrace (b : Nat) (s : QState) (ts : List QStep) : QState :=
  ts.foldl (applyQStep b) s

/-- Initial scheduler state over intake queue `Q`: nothing attempted, no
run in progress, `currentProcessingPromise` null. -/
def qInit (Q : List QueuedPrompt) : QState :=
  ⟨Q, false, none, false, []⟩

/-- Whether a trace is possible under the second revision's scheduler: its
recursive `setTimeout` awaits `currentProcessingPromise` before scheduling
the next tick, so a tick fires only with no run in progress.  The first
revision's `setInterval` scheduler has no such restriction: its ticks fire
every interval, also while a batch is suspended at an `await`. -/
def rev2ok (b : Nat) : QState → List QStep → Bool
  | _, [] => true
  | s, st :: ts =>
    (match st with
     | QStep.tick => s.run.isNone
     | _ => true) && rev2ok b (applyQStep b s st) ts

/- ============== Cooperative concurrency model (/prompt handler) ============== -/

/-- Where a task of the synchronous `/prompt` path is in its execution. -/
inductive Phase
  | start
  | awaiting (h : Nat)
  | calling (h : Nat)
  | doneOk (r : AnalysisResult)
  | doneErr
deriving DecidableEq

/-- One cooperative task executing the synchronous `/prompt` handler. -/
structure MTask where
  sid : String
  prompt : String
  phase : Phase
deriving DecidableEq

/-- State of an upstream-call promise. -/
inductive HandleState
  | pending
  | resolved (r : AnalysisResult)
  | rejected
deriving DecidableEq

/-- Whole-system state: the session-cache registries, the clock, the
cooperative tasks, the promise handles, and the number of upstream analyze
calls issued so far. -/
structure MState where
  g : GlobalState
  now : Nat
  tasks : List MTask
  handles : JsMap Nat HandleState
  nextHandle : Nat
  upstreamCalls : Nat
deriving DecidableEq

/-- Outcome of the synchronous prologue of the `/prompt` handler. -/
inductive PrologueOutcome
  | cacheHit (r : AnalysisResult)
  | awaitInFlight (h : Nat)
  | registered (h : Nat)
deriving DecidableEq

/-- The synchronous prologue of the `/prompt` handler (index.ts): cache
lookup; on a miss, in-flight lookup; on a second miss, issue the upstream
call and register its handle.  The whole prologue is one atomic step: the
source contains no `await` between the miss check and
`setInFlightRequest`. -/
def handlerPrologue (g : GlobalState) (sid prompt : String) (freshHandle now : Nat) :
    PrologueOutcome × GlobalState :=
  let (cres, g1) := getCachedResult g sid prompt now
  match cres with
  | some r => (.cacheHit r, g1)
  | none =>
    match getInFlightRequest g1 sid prompt with
    | some h => (.awaitInFlight h, g1)
    | none => (.registered freshHandle, setInFlightRequest g1 sid prompt freshHandle now)

/-- Scheduler events: `run i` lets task `i` execute its next synchronous
block; `resolve h r` / `reject h` settles promise `h` and synchronously runs
the issuing task's continuation (`finally \x7b clearInFlightRequest \x7d`,
then on success `cacheResult` and `addRecentPrompt`); `tick d` advances the
clock. -/
inductive MStep
  | run (i : Nat)
  | resolve (h : Nat) (r : AnalysisResult)
  | reject (h : Nat)
  | tick (d : Nat)
deriving DecidableEq

def MStep.isSettle : MStep → Bool
  | .resolve _ _ => true
  | .reject _ => true
  | _ => false

/-- One scheduler event.  Inapplicable events (out-of-range task index,
settling an unknown or already-settled handle, awaiting a pending handle)
leave the state unchanged. -/
def applyStep (s : MState) : MStep → MState
  | .run i =>
    match s.tasks[i]? with
    | none => s
    | some t =>
      match t.phase with
      | .start =>
        match handlerPrologue s.g t.sid t.prompt s.nextHandle s.now with
        | (.cacheHit r, g1) =>
          { s with g := g1, tasks := s.tasks.set i { t with phase := .doneOk r } }
        | (.awaitInFlight h, g1) =>
          { s with g := g1, tasks := s.tasks.set i { t with phase := .awaiting h } }
        | (.registered h, g1) =>
          { s with
            g := g1
            tasks := s.tasks.set i { t with phase := .calling h }
            handles := s.handles.set h .pending
            nextHandle := s.nextHandle + 1
            upstreamCalls := s.upstreamCalls + 1 }
      | .awaiting h =>
        match s.handles.get h with
        | some (.resolved r) =>
          { s with tasks := s.tasks.set i { t with phase := .doneOk r } }
        | some .rejected =>
          { s with tasks := s.tasks.set i { t with phase := .doneErr } }
        | _ => s
      | _ => s
  | .resolve h r =>
    match s.handles.get h with
    | some .pending =>
      let s1 := { s with handles := s.handles.set h (.resolved r) }
      match s.tasks.findIdx? (fun t => t.phase = .calling h) with
      | some i =>
        match s.tasks[i]? with
        | some t =>
          let g1 := clearInFlightRequest s1.g t.sid t.prompt
          let g2 := cacheResult g1 t.sid t.prompt r s1.now
          let g3 := addRecentPrompt g2 t.sid t.prompt
            (if r.hasCorrection then r.correction else none) s1.now
          { s1 with g := g3, tasks := s1.tasks.set i { t with phase := .doneOk r } }
        | none => s1
      | none => s1
    | _ => s
  | .reject h =>
    match s.handles.get h with
    | some .pending =>
      let s1 := { s with handles := s.handles.set h .rejected }
      match s.tasks.findIdx? (fun t => t.phase = .calling h) with
      | some i =>
        match s.tasks[i]? with
        | some t =>
          let g1 := clearInFlightRequest s1.g t.sid t.prompt
          { s1 with g := g1, tasks := s1.tasks.set i { t with phase := .doneErr } }
        | none => s1
      | none => s1
    | _ => s
  | .tick d => { s with now := s.now + d }

def applyTrace (s : MState) (steps : List MStep) : MState :=
  steps.foldl applyStep s

/-- Initial state for `n` concurrent submissions of the same
(conversation, text) pair against a fresh server. -/
def initMState (n : Nat) (sid prompt : String) : MState :=
  { g := emptyGlobalState
    now := 0
    tasks := List.replicate n ⟨sid, prompt, .start⟩
    handles := JsMap.empty
    nextHandle := 0
    upstreamCalls := 0 }

/-- Initial state from an explicit task list. -/
def mstateOfTasks (ts : List MTask) : MState :=
  { g := emptyGlobalState
    now := 0
    tasks := ts
    handles := JsMap.empty
    nextHandle := 0
    upstreamCalls := 0 }

/- ===================== Claim C2 ===================== -/

/-- C2 counterexample: on a non-parseable payload ("upstream returned no
json" contains no JSON object at all), `executeAnalysis` does not return a
"skip" outcome with an empty explanation; its fallback has `skip = false`
and explanation "Failed to analyze the text.". -/
theorem c2_parse_fallback_counterexample :
    executeAnalysisOutcome (fun _ => none) "upstream returned no json" "hello" =
      parseFailFallback "hello" ∧
    ¬ ((executeAnalysisOutcome (fun _ => none) "upstream returned no json" "hello").skip
        = true ∧
       (executeAnalysisOutcome (fun _ => none) "upstream returned no json" "hello").explanation
        = "") := by
  constructor
  · rfl
  · decide

/-- C2 (amended): when the upstream analysis call returns a non-parseable
payload (no JSON object in the text, or `JSON.parse` throws),
`executeAnalysis` returns — by normal return, not by throwing — the
fallback `AnalysisResult` with `skip = false`, no correction or
alternative, and explanation "Failed to analyze the text."; because it is a
normal return, `analyzePrompt`'s retry wrapper makes no further attempt
(one attempt, no backoff delays). -/
theorem c2_parse_fallback_is_skipless_default (parseJson : String → Option ParsedPayload)
    (upstream : Nat → Except String String) (resultText prompt : String)
    (hup : upstream 0 = .ok resultText)
    (hparse : jsonMatch resultText = none ∨
      ∃ m, jsonMatch resultText = some m ∧ parseJson m = none) :
    executeAnalysisOutcome parseJson resultText prompt = parseFailFallback prompt ∧
    (parseFailFallback prompt).skip = false ∧
    (parseFailFallback prompt).hasCorrection = false ∧
    (parseFailFallback prompt).alternative = none ∧
    (parseFailFallback prompt).explanation = "Failed to analyze the text." ∧
    (analyzePromptModel parseJson upstream prompt).result = .ok (parseFailFallback prompt) ∧
    (analyzePromptModel parseJson upstream prompt).attempts = 1 ∧
    (analyzePromptModel parseJson upstream prompt).delays = [] := by
  have hfall : executeAnalysisOutcome parseJson resultText prompt = parseFailFallback prompt := by
    rcases hparse with h | ⟨m, hm, hpm⟩
    · simp [executeAnalysisOutcome, h]
    · simp [executeAnalysisOutcome, hm, hpm]
  refine ⟨hfall, rfl, rfl, rfl, rfl, ?_, ?_, ?_⟩ <;>
    simp [analyzePromptModel, withRetryRun, withRetryGo, hup, Except.map, hfall]

/-- C2 witness: concrete non-parseable payload "oops". -/
theorem c2_parse_fallback_witness :
    (analyzePromptModel (fun _ => none) (fun _ => Except.ok "oops") "hello").result
      = Except.ok (parseFailFallback "hello") ∧
    (analyzePromptModel (fun _ => none) (fun _ => Except.ok "oops") "hello").attempts = 1 :=
  ⟨(c2_parse_fallback_is_skipless_default (fun _ => none) (fun _ => Except.ok "oops")
      "oops" "hello" rfl (Or.inl (by decide))).2.2.2.2.2.1,
   (c2_parse_fallback_is_skipless_default (fun _ => none) (fun _ => Except.ok "oops")
      "oops" "hello" rfl (Or.inl (by decide))).2.2.2.2.2.2.1⟩

/- ===================== Claim C6 ===================== -/

/-- C6: a cache entry written at time `T` is returned by `getCachedResult`
at any time strictly before `T + CACHE_TTL_MS` (indeed whenever the age
`now - T` is at most the TTL) with the state unchanged; when the age
exceeds the TTL the lookup returns absent and lazily deletes exactly that
entry, leaving every other cache entry, the in-flight map, the recency
list, and the last-activity registry untouched. -/
theorem c6_ttl_lookup (g : GlobalState) (sid prompt : String) (s : SessionData)
    (r : AnalysisResult) (T now : Nat)
    (hs : g.sessions.get sid = some s)
    (hc : s.cache.get prompt = some ⟨r, T⟩) :
    (now < T + CACHE_TTL_MS → getCachedResult g sid prompt now = (some r, g)) ∧
    (now - T ≤ CACHE_TTL_MS → getCachedResult g sid prompt now = (some r, g)) ∧
    (now - T > CACHE_TTL_MS →
      (getCachedResult g sid prompt now).1 = none ∧
      ∃ s1, (getCachedResult g sid prompt now).2.sessions.get sid = some s1 ∧
        s1.cache.get prompt = none ∧
        (∀ p, p ≠ prompt → s1.cache.get p = s.cache.get p) ∧
        s1.inFlight = s.inFlight ∧ s1.recentPrompts = s.recentPrompts) ∧
    (getCachedResult g sid prompt now).2.sessionLastActivity = g.sessionLastActivity := by
  by_cases hexp : now - T > CACHE_TTL_MS
  · refine ⟨fun hlt => absurd hexp (by omega), fun hle => absurd hexp (by omega), ?_, ?_⟩
    · intro _
      refine ⟨by simp [getCachedResult, hs, hc, hexp], ?_⟩
      refine ⟨{ s with cache := s.cache.delete prompt }, ?_, ?_, ?_, rfl, rfl⟩
      · simp [getCachedResult, hs, hc, hexp, setSession, JsMap.get_set_self]
      · exact JsMap.get_delete_self s.cache prompt
      · intro p hp
        exact JsMap.get_delete_ne s.cache prompt p hp
    · simp [getCachedResult, hs, hc, hexp, setSession]
  · have hres : getCachedResult g sid prompt now = (some r, g) := by
      simp [getCachedResult, hs, hc, hexp]
    exact ⟨fun _ => hres, fun _ => hres, fun h => absurd h hexp, by simp [hres]⟩

/-- C6 witness: an entry written at time 1000 in a one-session state is a
hit one millisecond before the TTL boundary. -/
theorem c6_ttl_lookup_witness :
    (getCachedResult
      ⟨JsMap.empty.set "s" { emptySession with
          cache := JsMap.empty.set "p" ⟨syntheticSkipResult "p", 1000⟩ },
        JsMap.empty.set "s" 1000⟩
      "s" "p" (1000 + CACHE_TTL_MS - 1)).1 = some (syntheticSkipResult "p") :=
  congrArg Prod.fst
    ((c6_ttl_lookup
      ⟨JsMap.empty.set "s" { emptySession with
          cache := JsMap.empty.set "p" ⟨syntheticSkipResult "p", 1000⟩ },
        JsMap.empty.set "s" 1000⟩
      "s" "p"
      { emptySession with cache := JsMap.empty.set "p" ⟨syntheticSkipResult "p", 1000⟩ }
      (syntheticSkipResult "p") 1000 (1000 + CACHE_TTL_MS - 1)
      (by rfl) (by rfl)).1 (by decide))

/- ===================== Claim C7 ===================== -/

theorem withRetryGo_ok (fn : Nat → Except ε α) (base maxD remaining attempt : Nat)
    (acc : List Nat) (v : α) (h : fn attempt = .ok v) :
    withRetryGo fn base maxD remaining attempt acc = ⟨.ok v, acc, attempt + 1⟩ := by
  cases remaining <;> rw [withRetryGo, h]

theorem withRetryGo_error_zero (fn : Nat → Except ε α) (base maxD attempt : Nat)
    (acc : List Nat) (e : ε) (h : fn attempt = .error e) :
    withRetryGo fn base maxD 0 attempt acc = ⟨.error e, acc, attempt + 1⟩ := by
  rw [withRetryGo, h]

theorem withRetryGo_error_succ (fn : Nat → Except ε α) (base maxD r attempt : Nat)
    (acc : List Nat) (e : ε) (h : fn attempt = .error e) :
    withRetryGo fn base maxD (r + 1) attempt acc
      = withRetryGo fn base maxD r (attempt + 1)
          (acc ++ [min (base * 2 ^ attempt) maxD]) := by
  rw [withRetryGo, h]

/-- Full specification of the `withRetry` loop, by induction on the number
of retries still allowed. -/
theorem withRetryGo_spec (fn : Nat → Except ε α) (base maxD : Nat) :
    ∀ (remaining attempt : Nat) (acc : List Nat),
    (∀ j, j < attempt → ∃ e, fn j = .error e) →
    acc = (List.range attempt).map (fun k => min (base * 2 ^ k) maxD) →
    (withRetryGo fn base maxD remaining attempt acc).attempts
        = (withRetryGo fn base maxD remaining attempt acc).delays.length + 1 ∧
    attempt < (withRetryGo fn base maxD remaining attempt acc).attempts ∧
    (withRetryGo fn base maxD remaining attempt acc).attempts ≤ attempt + remaining + 1 ∧
    (withRetryGo fn base maxD remaining attempt acc).delays
        = (List.range ((withRetryGo fn base maxD remaining attempt acc).attempts - 1)).map
            (fun k => min (base * 2 ^ k) maxD) ∧
    (∀ j, j < (withRetryGo fn base maxD remaining attempt acc).attempts - 1 →
      ∃ e, fn j = .error e) ∧
    (∀ v, (withRetryGo fn base maxD remaining attempt acc).result = .ok v →
      fn ((withRetryGo fn base maxD remaining attempt acc).attempts - 1) = .ok v) ∧
    (∀ e, (withRetryGo fn base maxD remaining attempt acc).result = .error e →
      (withRetryGo fn base maxD remaining attempt acc).attempts = attempt + remaining + 1 ∧
      fn (attempt + remaining) = .error e ∧
      ∀ j, j ≤ attempt + remaining → ∃ e1, fn j = .error e1) := by
  intro remaining
  induction remaining with
  | zero =>
    intro attempt acc hpre hacc
    cases hfa : fn attempt with
    | ok v =>
      rw [withRetryGo_ok fn base maxD 0 attempt acc v hfa]
      refine ⟨by simp [hacc], by simp, by simp, by simp [hacc], ?_, ?_, ?_⟩
      · simpa using hpre
      · intro v1 hv1
        have hv2 : v = v1 := by simpa using hv1
        subst hv2
        simpa using hfa
      · intro e he
        exact absurd he (by simp)
    | error e =>
      rw [withRetryGo_error_zero fn base maxD attempt acc e hfa]
      refine ⟨by simp [hacc], by simp, by simp, by simp [hacc], ?_, ?_, ?_⟩
      · simpa using hpre
      · intro v1 hv1
        exact absurd hv1 (by simp)
      · intro e1 he1
        have he2 : e = e1 := by simpa using he1
        subst he2
        refine ⟨by simp, by simpa using hfa, ?_⟩
        intro j hj
        rcases Nat.lt_or_ge j attempt with hj1 | hj1
        · exact hpre j hj1
        · have hj2 : j = attempt := by omega
          subst hj2
          exact ⟨e, hfa⟩
  | succ r ih =>
    intro attempt acc hpre hacc
    cases hfa : fn attempt with
    | ok v =>
      rw [withRetryGo_ok fn base maxD (r + 1) attempt acc v hfa]
      refine ⟨by simp [hacc], by simp, by simp, by simp [hacc], ?_, ?_, ?_⟩
      · simpa using hpre
      · intro v1 hv1
        have hv2 : v = v1 := by simpa using hv1
        subst hv2
        simpa using hfa
      · intro e he
        exact absurd he (by simp)
    | error e =>
      have hpre1 : ∀ j, j < attempt + 1 → ∃ e1, fn j = .error e1 := by
        intro j hj
        rcases Nat.lt_or_ge j attempt with hj1 | hj1
        · exact hpre j hj1
        · have hj2 : j = attempt := by omega
          subst hj2
          exact ⟨e, hfa⟩
      have hacc1 : acc ++ [min (base * 2 ^ attempt) maxD]
          = (List.range (attempt + 1)).map (fun k => min (base * 2 ^ k) maxD) := by
        rw [hacc, List.range_succ]
        simp
      have h := ih (attempt + 1) (acc ++ [min (base * 2 ^ attempt) maxD]) hpre1 hacc1
      rw [withRetryGo_error_succ fn base maxD r attempt acc e hfa]
      refine ⟨h.1, by have := h.2.1; omega, by have := h.2.2.1; omega, h.2.2.2.1,
        h.2.2.2.2.1, h.2.2.2.2.2.1, ?_⟩
      intro e1 he1
      have h7 := h.2.2.2.2.2.2 e1 he1
      refine ⟨by have := h7.1; omega, ?_, ?_⟩
      · have := h7.2.1
        have harith : attempt + 1 + r = attempt + (r + 1) := by omega
        rwa [harith] at this
      · intro j hj
        exact h7.2.2 j (by omega)

/-- C7: `withRetry` makes at most `maxRetries + 1` attempts; the delays
slept are exactly `min(baseDelay * 2 ^ (k - 1), maxDelay)` before retry
attempt `k = 1, 2, ...`; a success result is the value of the first
successful invocation (all earlier invocations having failed); after
exhaustion it fails with the error of the last (`maxRetries`-th,
zero-based) invocation, every invocation having failed. -/
theorem c7_withRetry_backoff (fn : Nat → Except ε α) (maxRetries base maxD : Nat) :
    (withRetryRun fn maxRetries base maxD).attempts ≤ maxRetries + 1 ∧
    1 ≤ (withRetryRun fn maxRetries base maxD).attempts ∧
    (withRetryRun fn maxRetries base maxD).delays
      = (List.range ((withRetryRun fn maxRetries base maxD).attempts - 1)).map
          (fun k => min (base * 2 ^ k) maxD) ∧
    (∀ v, (withRetryRun fn maxRetries base maxD).result = .ok v →
      fn ((withRetryRun fn maxRetries base maxD).attempts - 1) = .ok v ∧
      ∀ j, j < (withRetryRun fn maxRetries base maxD).attempts - 1 →
        ∃ e, fn j = .error e) ∧
    (∀ e, (withRetryRun fn maxRetries base maxD).result = .error e →
      (withRetryRun fn maxRetries base maxD).attempts = maxRetries + 1 ∧
      fn maxRetries = .error e ∧
      ∀ j, j ≤ maxRetries → ∃ e1, fn j = .error e1) := by
  simp only [withRetryRun]
  have h := withRetryGo_spec fn base maxD maxRetries 0 [] (by omega) (by simp)
  refine ⟨by have := h.2.2.1; omega, by have := h.2.1; omega, h.2.2.2.1, ?_, ?_⟩
  · intro v hv
    exact ⟨h.2.2.2.2.2.1 v hv, h.2.2.2.2.1⟩
  · intro e he
    have h7 := h.2.2.2.2.2.2 e he
    refine ⟨by have := h7.1; omega, ?_, fun j hj => h7.2.2 j (by omega)⟩
    have := h7.2.1
    have harith : 0 + maxRetries = maxRetries := by omega
    rwa [harith] at this

/-- The stub of the spec's retry test: fails twice, then succeeds. -/
def retryStubFn : Nat → Except String Nat :=
  fun i => if i < 2 then .error "transient fault" else .ok 42

/-- C7 witness: with `maxRetries = 2`, `baseDelayMs = 500`,
`maxDelayMs = 10000`, the stub is retried with delays 500 then 1000 and the
third attempt's success value is returned. -/
theorem c7_withRetry_backoff_witness :
    (withRetryRun retryStubFn 2 500 10000).delays = [500, 1000] ∧
    (withRetryRun retryStubFn 2 500 10000).attempts = 3 ∧
    retryStubFn ((withRetryRun retryStubFn 2 500 10000).attempts - 1) = Except.ok 42 :=
  ⟨by decide, by decide,
    ((c7_withRetry_backoff retryStubFn 2 500 10000).2.2.2.1 42 (by rfl)).1⟩

/- ============ State-effect helper lemmas for the session-cache ops ============ -/

theorem setSession_lastActivity (g : GlobalState) (sid : String) (s : SessionData) :
    (setSession g sid s).sessionLastActivity = g.sessionLastActivity := rfl

theorem getOrCreateSession_lastActivity (g : GlobalState) (sid : String) (now : Nat) :
    ((getOrCreateSession g sid now).2).sessionLastActivity
      = g.sessionLastActivity.set sid now := by
  cases hgs : g.sessions.get sid <;> simp [getOrCreateSession, hgs]

theorem cacheResult_lastActivity (g : GlobalState) (sid prompt : String)
    (r : AnalysisResult) (now : Nat) :
    (cacheResult g sid prompt r now).sessionLastActivity
      = g.sessionLastActivity.set sid now := by
  cases hgs : g.sessions.get sid <;>
    simp [cacheResult, getOrCreateSession, hgs, setSession]

theorem setInFlightRequest_lastActivity (g : GlobalState) (sid prompt : String)
    (h now : Nat) :
    (setInFlightRequest g sid prompt h now).sessionLastActivity
      = g.sessionLastActivity.set sid now := by
  cases hgs : g.sessions.get sid <;>
    simp [setInFlightRequest, getOrCreateSession, hgs, setSession]

theorem addRecentPrompt_lastActivity (g : GlobalState) (sid prompt : String)
    (corrected : Option String) (now : Nat) :
    (addRecentPrompt g sid prompt corrected now).sessionLastActivity
      = g.sessionLastActivity.set sid now := by
  cases hgs : g.sessions.get sid <;>
    · simp only [addRecentPrompt, getOrCreateSession, hgs]
      split <;> simp [setSession]

theorem getCachedResult_lastActivity (g : GlobalState) (sid prompt : String) (now : Nat) :
    ((getCachedResult g sid prompt now).2).sessionLastActivity
      = g.sessionLastActivity := by
  cases hgs : g.sessions.get sid with
  | none => simp [getCachedResult, hgs]
  | some s =>
    cases hc : s.cache.get prompt with
    | none => simp [getCachedResult, hgs, hc]
    | some cached =>
      by_cases hexp : now - cached.timestamp > CACHE_TTL_MS <;>
        simp [getCachedResult, hgs, hc, hexp, setSession]

theorem clearInFlightRequest_lastActivity (g : GlobalState) (sid prompt : String) :
    (clearInFlightRequest g sid prompt).sessionLastActivity
      = g.sessionLastActivity := by
  cases hgs : g.sessions.get sid <;> simp [clearInFlightRequest, hgs, setSession]

/- ===================== Claim C5 ===================== -/

/-- After `cacheResult` stores a correction outcome, the conversation's
cache maps the corrected text to the synthetic skip entry stamped `now`
(provided the corrected text is JS-truthy, i.e. non-empty). -/
theorem cacheResult_corrected_entry (g : GlobalState) (sid A B : String)
    (r : AnalysisResult) (now : Nat)
    (hcorr : r.hasCorrection = true) (hB : r.correction = some B) (hBne : B ≠ "") :
    ∃ sd, (cacheResult g sid A r now).sessions.get sid = some sd ∧
      sd.cache.get B = some ⟨syntheticSkipResult B, now⟩ := by
  cases hgs : g.sessions.get sid with
  | none =>
    simp only [cacheResult, getOrCreateSession, hgs, setSession]
    refine ⟨_, JsMap.get_set_self _ sid _, ?_⟩
    simp [cacheCorrectedText, hB, hcorr, hBne, JsMap.get_set_self]
  | some s =>
    simp only [cacheResult, getOrCreateSession, hgs, setSession]
    refine ⟨_, JsMap.get_set_self _ sid _, ?_⟩
    simp [cacheCorrectedText, hB, hcorr, hBne, JsMap.get_set_self]

/-- C5 (amended): for every store of a correction outcome for text `A`
whose corrected text `B` is non-empty, a synthetic "skip" entry keyed by
the literal string `B` is inserted into the same conversation's cache, so a
subsequent lookup for literal `B` within the TTL is a cache hit yielding
the "skip" outcome, and the `/prompt` handler prologue on `B` answers from
the cache without issuing an upstream call.  (The source guards the
synthetic entry with JS truthiness of `result.correction`, so an empty
corrected text inserts nothing — see the counterexample.) -/
theorem c5_correction_feedback_suppression (g : GlobalState) (sid A B : String)
    (r : AnalysisResult) (now now1 fh : Nat)
    (hcorr : r.hasCorrection = true) (hB : r.correction = some B) (hBne : B ≠ "")
    (hage : now1 - now ≤ CACHE_TTL_MS) :
    (getCachedResult (cacheResult g sid A r now) sid B now1).1
        = some (syntheticSkipResult B) ∧
    (handlerPrologue (cacheResult g sid A r now) sid B fh now1).1
        = .cacheHit (syntheticSkipResult B) := by
  obtain ⟨sd, hsd, hcB⟩ := cacheResult_corrected_entry g sid A B r now hcorr hB hBne
  have hexp : ¬ now1 - now > CACHE_TTL_MS := by omega
  have hlook : getCachedResult (cacheResult g sid A r now) sid B now1
      = (some (syntheticSkipResult B), cacheResult g sid A r now) := by
    simp [getCachedResult, hsd, hcB, hexp]
  exact ⟨by simp [hlook], by simp [handlerPrologue, hlook]⟩

/-- C5 counterexample: the synthetic-entry insertion is guarded by JS
truthiness of `result.correction`, so a correction outcome whose corrected
text is the empty string inserts no skip entry: the subsequent lookup for
the literal corrected text misses, contradicting the claim's universal
statement. -/
theorem c5_correction_feedback_counterexample :
    (getCachedResult
      (cacheResult emptyGlobalState "s" "hello"
        { skip := false
          hasCorrection := true
          correction := some ""
          explanation := "x"
          alternative := none
          significant := false
          originalPrompt := "hello" } 0)
      "s" "" 0).1 = none := by
  decide

/-- C5 witness: a correction of "helo wrld" into "hello world" makes an
immediate lookup for the literal "hello world" a cache hit with the skip
outcome, and the handler prologue answers from the cache. -/
theorem c5_correction_feedback_suppression_witness :
    (getCachedResult
      (cacheResult emptyGlobalState "s" "helo wrld"
        { skip := false
          hasCorrection := true
          correction := some "hello world"
          explanation := "- typo"
          alternative := none
          significant := true
          originalPrompt := "helo wrld" } 0)
      "s" "hello world" 0).1 = some (syntheticSkipResult "hello world") ∧
    (handlerPrologue
      (cacheResult emptyGlobalState "s" "helo wrld"
        { skip := false
          hasCorrection := true
          correction := some "hello world"
          explanation := "- typo"
          alternative := none
          significant := true
          originalPrompt := "helo wrld" } 0)
      "s" "hello world" 0 0).1 = .cacheHit (syntheticSkipResult "hello world") :=
  c5_correction_feedback_suppression emptyGlobalState "s" "helo wrld" "hello world"
    { skip := false
      hasCorrection := true
      correction := some "hello world"
      explanation := "- typo"
      alternative := none
      significant := true
      originalPrompt := "helo wrld" } 0 0 0 rfl rfl (by decide) (by decide)

/- ===================== Claim C9 ===================== -/

/-- C9 (amended): only the write operations — `cacheResult`,
`setInFlightRequest`, `addRecentPrompt`, which all call
`getOrCreateSession` — update the conversation's last-activity timestamp
(to the current time); the read operations — cache lookup, in-flight
lookup, recency read — and `clearInFlightRequest` leave the last-activity
registry untouched, so a conversation idle beyond the 30-minute threshold
can be swept even though a read has just accessed it. -/
theorem c9_last_activity_updates (g : GlobalState) (sid prompt : String)
    (r : AnalysisResult) (h now : Nat) (corrected : Option String) :
    (cacheResult g sid prompt r now).sessionLastActivity.get sid = some now ∧
    (setInFlightRequest g sid prompt h now).sessionLastActivity.get sid = some now ∧
    (addRecentPrompt g sid prompt corrected now).sessionLastActivity.get sid = some now ∧
    ((getCachedResult g sid prompt now).2).sessionLastActivity = g.sessionLastActivity ∧
    (clearInFlightRequest g sid prompt).sessionLastActivity = g.sessionLastActivity := by
  refine ⟨?_, ?_, ?_, getCachedResult_lastActivity g sid prompt now,
    clearInFlightRequest_lastActivity g sid prompt⟩
  · rw [cacheResult_lastActivity]
    exact JsMap.get_set_self g.sessionLastActivity sid now
  · rw [setInFlightRequest_lastActivity]
    exact JsMap.get_set_self g.sessionLastActivity sid now
  · rw [addRecentPrompt_lastActivity]
    exact JsMap.get_set_self g.sessionLastActivity sid now

/-- C9 counterexample: a cache lookup (a request operation touching the
conversation) does not update the conversation's last-activity timestamp —
it stays at its old value instead of the current time — and the idle sweep
run at the same instant removes the very conversation the lookup just
accessed. -/
theorem c9_sweep_vs_read_counterexample :
    ((getCachedResult
        ⟨JsMap.empty.set "s" { emptySession with
            cache := JsMap.empty.set "p" ⟨syntheticSkipResult "p", 0⟩ },
          JsMap.empty.set "s" 0⟩
        "s" "p" 100).2).sessionLastActivity.get "s" = some 0 ∧
    ¬ (((getCachedResult
        ⟨JsMap.empty.set "s" { emptySession with
            cache := JsMap.empty.set "p" ⟨syntheticSkipResult "p", 0⟩ },
          JsMap.empty.set "s" 0⟩
        "s" "p" 100).2).sessionLastActivity.get "s" = some 100) ∧
    (cleanupSessions
      ((getCachedResult
        ⟨JsMap.empty.set "s" { emptySession with
            cache := JsMap.empty.set "p" ⟨syntheticSkipResult "p", 0⟩ },
          JsMap.empty.set "s" 0⟩
        "s" "p" (SESSION_MAX_AGE_MS + 1)).2)
      (SESSION_MAX_AGE_MS + 1)).sessions.get "s" = none := by
  refine ⟨by decide, by decide, by decide⟩

/- ===================== Claim C3 ===================== -/

/-- In a duplicate-free list, the index of the head of the `i`-th drop is
`i` (so `batch.indexOf(record)` recovers the loop position). -/
theorem indexOf_head_drop {α : Type} [DecidableEq α] (l : List α) :
    l.Nodup → ∀ (i : Nat) (a : α) (t : List α), l.drop i = a :: t → l.indexOf a = i := by
  induction l with
  | nil =>
    intro _ i a t hdrop
    simp at hdrop
  | cons x xs ih =>
    intro hnd i a t hdrop
    cases i with
    | zero =>
      simp only [List.drop_zero] at hdrop
      cases hdrop
      simp [List.indexOf_cons]
    | succ j =>
      simp only [List.drop_succ_cons] at hdrop
      have hmem : a ∈ xs := List.drop_subset j xs (hdrop ▸ List.mem_cons_self a t)
      have hne : ¬ x = a := by
        intro hxa
        exact (List.nodup_cons.mp hnd).1 (hxa ▸ hmem)
      have hbeq : (x == a) = false := beq_eq_false_iff_ne.mpr hne
      rw [List.indexOf_cons, hbeq, cond_false,
        ih (List.nodup_cons.mp hnd).2 j a t hdrop]

/-- Scheduler invariant maintained under the recursive-`setTimeout`
discipline: while a run is in progress, `currentProcessingPromise` holds
its live promise; and the attempted items, followed by the
not-yet-attempted items (remainder of the in-progress batch, then the
queue), are exactly the original intake queue. -/
def QInv (Q : List QueuedPrompt) (s : QState) : Prop :=
  (s.run.isSome → s.cppLive = true) ∧
  (s.run = none → s.attempted ++ s.queue = Q) ∧
  ∀ r, s.run = some r →
    ∃ pfx, s.attempted = pfx ++ r.batch.take (r.idx + 1) ∧
      Q = pfx ++ (r.batch ++ s.queue)

theorem qInv_init (Q : List QueuedPrompt) : QInv Q (qInit Q) := by
  refine ⟨?_, ?_, ?_⟩
  · intro h
    simp [qInit] at h
  · intro _
    rfl
  · intro r hr
    simp [qInit] at hr

theorem qInv_step (b : Nat) (Q : List QueuedPrompt) (hnd : Q.Nodup)
    (s : QState) (st : QStep) (hinv : QInv Q s)
    (htick : st = QStep.tick → s.run = none) :
    QInv Q (applyQStep b s st) := by
  obtain ⟨ha, hn, hs⟩ := hinv
  cases st with
  | stop =>
    exact ⟨ha, hn, hs⟩
  | tick =>
    have hrun : s.run = none := htick rfl
    cases hsd : s.shutdown with
    | true =>
      have heq : applyQStep b s QStep.tick = s := by
        simp [applyQStep, hsd]
      rw [heq]
      exact ⟨ha, hn, hs⟩
    | false =>
      have hiss : s.run.isSome = false := by rw [hrun]; rfl
      cases hx : s.queue.take b with
      | nil =>
        have heq : applyQStep b s QStep.tick = { s with cppLive := false } := by
          simp [applyQStep, hsd, hiss, hx]
        rw [heq]
        refine ⟨?_, ?_, ?_⟩
        · intro h
          rw [hrun] at h
          simp at h
        · intro _
          exact hn hrun
        · intro r hr
          rw [hrun] at hr
          cases hr
      | cons x xs =>
        have heq : applyQStep b s QStep.tick = { s with
            queue := s.queue.drop b
            run := some ⟨s.queue.take b, 0⟩
            cppLive := true
            attempted := s.attempted ++ [x] } := by
          simp [applyQStep, hsd, hiss, hx]
        rw [heq]
        refine ⟨fun _ => rfl, ?_, ?_⟩
        · intro h
          cases h
        · intro r hr
          injection hr with hr2
          rw [← hr2]
          refine ⟨s.attempted, ?_, ?_⟩
          · rw [hx]
            rfl
          · rw [List.take_append_drop]
            exact (hn hrun).symm
  | item =>
    cases hr : s.run with
    | none =>
      have heq : applyQStep b s QStep.item = s := by
        simp [applyQStep, hr]
      rw [heq]
      exact ⟨ha, hn, hs⟩
    | some r =>
      obtain ⟨pfx, hatt, hQ⟩ := hs r hr
      have hcpp : s.cppLive = true := ha (by rw [hr]; rfl)
      cases hd : r.batch.drop (r.idx + 1) with
      | nil =>
        have htk : r.batch.take (r.idx + 1) = r.batch :=
          List.take_of_length_le (List.drop_eq_nil_iff.mp hd)
        have heq : applyQStep b s QStep.item
            = { s with run := none, cppLive := false } := by
          simp [applyQStep, hr, hd]
        rw [heq]
        refine ⟨?_, ?_, ?_⟩
        · intro h
          simp at h
        · intro _
          show s.attempted ++ s.queue = Q
          rw [hatt, htk, hQ, List.append_assoc]
        · intro r' hr'
          cases hr'
      | cons record rest2 =>
        have hndb : r.batch.Nodup := by
          have hsub : r.batch.Sublist Q := by
            rw [hQ]
            exact (List.sublist_append_left r.batch s.queue).trans
              (List.sublist_append_right pfx (r.batch ++ s.queue))
          exact hsub.nodup hnd
        have hidx : r.batch.indexOf record = r.idx + 1 :=
          indexOf_head_drop r.batch hndb (r.idx + 1) record rest2 hd
        cases hsd : s.shutdown with
        | true =>
          have heq : applyQStep b s QStep.item = { s with
              queue := r.batch.drop (r.idx + 1) ++ s.queue
              run := none
              cppLive := false } := by
            simp [applyQStep, hr, hd, hsd, hidx]
          rw [heq]
          refine ⟨?_, ?_, ?_⟩
          · intro h
            simp at h
          · intro _
            show s.attempted ++ (r.batch.drop (r.idx + 1) ++ s.queue) = Q
            rw [hatt, hQ, List.append_assoc,
              ← List.append_assoc (r.batch.take (r.idx + 1)),
              List.take_append_drop]
          · intro r' hr'
            cases hr'
        | false =>
          have heq : applyQStep b s QStep.item = { s with
              run := some ⟨r.batch, r.idx + 1⟩
              attempted := s.attempted ++ [record] } := by
            simp [applyQStep, hr, hd, hsd]
          rw [heq]
          refine ⟨fun _ => hcpp, ?_, ?_⟩
          · intro h
            cases h
          · intro r' hr'
            injection hr' with hr2
            rw [← hr2]
            refine ⟨pfx, ?_, hQ⟩
            show s.attempted ++ [record] = pfx ++ r.batch.take (r.idx + 1 + 1)
            rw [List.take_add, hd, hatt, List.append_assoc]
            rfl

theorem qInv_trace (b : Nat) (Q : List QueuedPrompt) (hnd : Q.Nodup) :
    ∀ (ts : List QStep) (s : QState), QInv Q s → rev2ok b s ts = true →
      QInv Q (applyQTrace b s ts) := by
  intro ts
  induction ts with
  | nil =>
    intro s h _
    exact h
  | cons st ts ih =>
    intro s h hok
    cases st with
    | tick =>
      have hok2 : (s.run.isNone && rev2ok b (applyQStep b s QStep.tick) ts) = true := hok
      have hok3 := Bool.and_eq_true_iff.mp hok2
      exact ih _ (qInv_step b Q hnd s QStep.tick h
        (fun _ => Option.isNone_iff_eq_none.mp hok3.1)) hok3.2
    | item =>
      have hok2 : (true && rev2ok b (applyQStep b s QStep.item) ts) = true := hok
      have hok3 := Bool.and_eq_true_iff.mp hok2
      exact ih _ (qInv_step b Q hnd s QStep.item h (fun hst => by cases hst)) hok3.2
    | stop =>
      have hok2 : (true && rev2ok b (applyQStep b s QStep.stop) ts) = true := hok
      have hok3 := Bool.and_eq_true_iff.mp hok2
      exact ih _ (qInv_step b Q hnd s QStep.stop h (fun hst => by cases hst)) hok3.2

/-- C3 (amended): under the second revision's recursive-`setTimeout`
scheduler — which never fires a tick while a batch is in progress, so
`currentProcessingPromise` is only ever null, the live promise of the
in-progress run, or that run's own promise once resolved — for an intake
queue of pairwise-distinct items (fresh objects are distinct by reference
in the source): in any reachable state where `shutdownRequested` is set
and `waitForQueueDrain()` resolves without further batch progress (the
stored promise is not a live one), the in-progress batch has in fact
finished, the attempted items followed by the final queue are exactly the
original intake queue — the popped-but-unattempted remainder was pushed
back to the front, nothing lost, nothing double-counted — and the pending
count equals `N` minus the number of items attempted.  The first
revision's `setInterval` scheduler does not satisfy this: see the
counterexample. -/
theorem c3_graceful_shutdown_accounting (b : Nat) (Q : List QueuedPrompt)
    (hnd : Q.Nodup) (ts : List QStep)
    (hrev2 : rev2ok b (qInit Q) ts = true)
    (hstop : (applyQTrace b (qInit Q) ts).shutdown = true)
    (hdrain : (applyQTrace b (qInit Q) ts).cppLive = false) :
    (applyQTrace b (qInit Q) ts).run = none ∧
    (applyQTrace b (qInit Q) ts).attempted ++ (applyQTrace b (qInit Q) ts).queue = Q ∧
    (applyQTrace b (qInit Q) ts).queue.length
      = Q.length - (applyQTrace b (qInit Q) ts).attempted.length := by
  have _ := hstop
  have hinv := qInv_trace b Q hnd ts (qInit Q) (qInv_init Q) hrev2
  obtain ⟨ha, hn, _⟩ := hinv
  have hrun : (applyQTrace b (qInit Q) ts).run = none := by
    cases hr : (applyQTrace b (qInit Q) ts).run with
    | none => rfl
    | some r =>
      have hl : (applyQTrace b (qInit Q) ts).cppLive = true := ha (by rw [hr]; rfl)
      rw [hdrain] at hl
      cases hl
  have hacc := hn hrun
  refine ⟨hrun, hacc, ?_⟩
  have hlen := congrArg List.length hacc
  rw [List.length_append] at hlen
  omega

/-- Distinct queue items for the C3 witness and counterexample. -/
def c3Item (n : Nat) : QueuedPrompt := ⟨toString n, "", "", "", ""⟩

/-- Intake queue for the C3 witness. -/
def c3Q : List QueuedPrompt := [c3Item 0, c3Item 1, c3Item 2]

/-- C3 witness: queue of three distinct items, batch size two.  A tick
pops the two-item batch and attempts the first item; stop() arrives
mid-batch; the resumed loop observes shutdown at the second item's check,
pushes it back to the front and finishes, resolving the drain promise only
then.  One item was attempted and the pending count is 3 - 1 = 2, with
the attempted item followed by the final queue equal to the original
queue. -/
theorem c3_graceful_shutdown_accounting_witness :
    (rev2ok 2 (qInit c3Q) [QStep.tick, QStep.stop, QStep.item] = true ∧
      (applyQTrace 2 (qInit c3Q) [QStep.tick, QStep.stop, QStep.item]).shutdown = true ∧
      (applyQTrace 2 (qInit c3Q) [QStep.tick, QStep.stop, QStep.item]).cppLive = false) ∧
    (applyQTrace 2 (qInit c3Q) [QStep.tick, QStep.stop, QStep.item]).run = none ∧
    (applyQTrace 2 (qInit c3Q) [QStep.tick, QStep.stop, QStep.item]).attempted
      ++ (applyQTrace 2 (qInit c3Q) [QStep.tick, QStep.stop, QStep.item]).queue = c3Q ∧
    (applyQTrace 2 (qInit c3Q) [QStep.tick, QStep.stop, QStep.item]).queue.length
      = c3Q.length
        - (applyQTrace 2 (qInit c3Q) [QStep.tick, QStep.stop, QStep.item]).attempted.length :=
  ⟨⟨by decide, by decide, by decide⟩,
   c3_graceful_shutdown_accounting 2 c3Q (by decide)
     [QStep.tick, QStep.stop, QStep.item] (by decide) (by decide) (by decide)⟩

/-- C3 counterexample (first revision, `setInterval` scheduler): queue of
two distinct items, batch size two.  A tick pops the batch, attempts the
first item and suspends at its `await`; the next interval tick fires
mid-batch, its `processQueue()` call returns at the `isProcessing` guard,
and the assignment overwrites `currentProcessingPromise` with that call's
already-resolved promise; then `stop()` is called.  `waitForQueueDrain()`
now resolves immediately although the batch is still in progress —
refuting that waitForDrain resolves only once the in-progress batch has
finished — and at that point the pending count is `0`, not
`N - attempted = 2 - 1 = 1`: the popped-but-unattempted second item is
counted nowhere.  The trace is impossible under the second revision's
scheduler (`rev2ok` is false on it). -/
theorem c3_setInterval_drain_counterexample :
    (applyQTrace 2 (qInit [c3Item 0, c3Item 1])
        [QStep.tick, QStep.tick, QStep.stop]).shutdown = true ∧
    (applyQTrace 2 (qInit [c3Item 0, c3Item 1])
        [QStep.tick, QStep.tick, QStep.stop]).cppLive = false ∧
    (applyQTrace 2 (qInit [c3Item 0, c3Item 1])
        [QStep.tick, QStep.tick, QStep.stop]).run.isSome = true ∧
    (applyQTrace 2 (qInit [c3Item 0, c3Item 1])
        [QStep.tick, QStep.tick, QStep.stop]).attempted.length = 1 ∧
    (applyQTrace 2 (qInit [c3Item 0, c3Item 1])
        [QStep.tick, QStep.tick, QStep.stop]).queue.length
      ≠ 2 - (applyQTrace 2 (qInit [c3Item 0, c3Item 1])
        [QStep.tick, QStep.tick, QStep.stop]).attempted.length ∧
    rev2ok 2 (qInit [c3Item 0, c3Item 1]) [QStep.tick, QStep.tick, QStep.stop] = false := by
  decide

/- ============ Insertion-order and size lemmas for eviction (C4, C10) ============ -/

section MapLemmas2

variable {α β : Type} [DecidableEq α]

theorem setList_append_of_not_mem (l : List (α × β)) (k : α) (v : β)
    (h : ¬ k ∈ l.map Prod.fst) : setList l k v = l ++ [(k, v)] := by
  induction l with
  | nil => simp [setList]
  | cons e es ih =>
    simp only [List.map_cons, List.mem_cons, not_or] at h
    have he : ¬ e.1 = k := fun hk => h.1 hk.symm
    simp [setList, he, ih h.2]

theorem deleteList_of_not_mem (l : List (α × β)) (k : α)
    (h : ¬ k ∈ l.map Prod.fst) : deleteList l k = l := by
  induction l with
  | nil => simp [deleteList]
  | cons e es ih =>
    simp only [List.map_cons, List.mem_cons, not_or] at h
    have he : ¬ e.1 = k := fun hk => h.1 hk.symm
    simp [deleteList, he, ih h.2]

theorem deleteList_sublist (l : List (α × β)) (k : α) : (deleteList l k).Sublist l := by
  induction l with
  | nil => simp [deleteList]
  | cons e es ih =>
    by_cases h : e.1 = k
    · simp only [deleteList, h, if_true]
      exact ih.cons e
    · simp only [deleteList, h, if_false]
      exact ih.cons₂ e

theorem JsMap.WF_delete (m : JsMap α β) (k : α) (h : m.WF) : (m.delete k).WF :=
  List.Nodup.sublist ((deleteList_sublist m.entries k).map Prod.fst) h

theorem JsMap.WF_set (m : JsMap α β) (k : α) (v : β) (h : m.WF) : (m.set k v).WF := by
  unfold JsMap.WF JsMap.keysList at *
  show ((setList m.entries k v).map Prod.fst).Nodup
  rw [keysList_map_setList]
  by_cases hmem : (lookupList m.entries k).isSome
  · simpa [hmem] using h
  · simp only [hmem, if_false]
    rw [lookupList_isSome_iff_mem] at hmem
    simp [List.nodup_append, h, hmem]

omit [DecidableEq α] in
theorem JsMap.WF_empty : (JsMap.empty : JsMap α β).WF := by
  simp [JsMap.WF, JsMap.empty, JsMap.keysList]

/-- In a duplicate-free list of strings at most one element is the empty
string, so filtering it out removes at most one element. -/
theorem nodup_length_le_filter_ne_empty (l : List String) (hnd : l.Nodup) :
    l.length ≤ (l.filter (fun k => k ≠ "")).length + 1 := by
  induction l with
  | nil => simp
  | cons x xs ih =>
    have hx := List.nodup_cons.mp hnd
    by_cases hxe : x = ""
    · subst hxe
      have hall : ∀ a ∈ xs, a ≠ "" := fun a ha hae => hx.1 (hae ▸ ha)
      have hfil : xs.filter (fun k => k ≠ "") = xs :=
        List.filter_eq_self.mpr (fun a ha => decide_eq_true (hall a ha))
      rw [List.filter_cons, if_neg (by decide), hfil, List.length_cons]
    · rw [List.filter_cons, if_pos (decide_eq_true hxe)]
      have := ih hx.2
      simp only [List.length_cons]
      omega

end MapLemmas2

section EvictLemmas

variable {β : Type}

/-- The eviction fold only shrinks the map. -/
theorem foldDelete_size_le (ks : List String) :
    ∀ (m : JsMap String β),
    ((ks.foldl (fun acc k => if k = "" then acc else acc.delete k) m)).size ≤ m.size := by
  induction ks with
  | nil => intro m; simp
  | cons k ks ih =>
    intro m
    by_cases hk : k = ""
    · simpa [hk] using ih m
    · have h1 := ih (m.delete k)
      have h2 : (m.delete k).size ≤ m.size := length_deleteList_le m.entries k
      simpa [hk] using Nat.le_trans h1 h2

/-- The eviction fold preserves well-formedness. -/
theorem foldDelete_WF (ks : List String) :
    ∀ (m : JsMap String β), m.WF →
    ((ks.foldl (fun acc k => if k = "" then acc else acc.delete k) m)).WF := by
  induction ks with
  | nil => intro m h; simpa using h
  | cons k ks ih =>
    intro m h
    by_cases hk : k = ""
    · simpa [hk] using ih m h
    · simpa [hk] using ih (m.delete k) (JsMap.WF_delete m k h)

/-- Exact size of the eviction fold over a duplicate-free key list whose
non-empty keys are all present. -/
theorem foldDelete_size_exact (ks : List String) :
    ∀ (m : JsMap String β), m.WF → ks.Nodup →
    (∀ k ∈ ks, k ≠ "" → (m.get k).isSome) →
    ((ks.foldl (fun acc k => if k = "" then acc else acc.delete k) m)).size
      + (ks.filter (fun k => k ≠ "")).length = m.size := by
  induction ks with
  | nil => intro m _ _ _; simp
  | cons k ks ih =>
    intro m hwf hnd hin
    have hknd := List.nodup_cons.mp hnd
    by_cases hk : k = ""
    · have hfil : (k :: ks).filter (fun k1 => k1 ≠ "") = ks.filter (fun k1 => k1 ≠ "") := by
        simp [List.filter_cons, hk]
      rw [List.foldl_cons, if_pos hk, hfil]
      exact ih m hwf hknd.2 (fun k1 h1 h2 => hin k1 (by simp [h1]) h2)
    · have hkin : (m.get k).isSome := hin k (by simp) hk
      have hmem : k ∈ m.entries.map Prod.fst :=
        (lookupList_isSome_iff_mem m.entries k).mp hkin
      have hsize : (m.delete k).size + 1 = m.size :=
        length_deleteList_of_nodup_mem m.entries k hwf hmem
      have hin1 : ∀ k1 ∈ ks, k1 ≠ "" → ((m.delete k).get k1).isSome := by
        intro k1 h1 h2
        have hne : k1 ≠ k := fun hkk => hknd.1 (hkk ▸ h1)
        rw [JsMap.get_delete_ne m k k1 hne]
        exact hin k1 (by simp [h1]) h2
      have hih := ih (m.delete k) (JsMap.WF_delete m k hwf) hknd.2 hin1
      have hfil : (k :: ks).filter (fun k1 => k1 ≠ "")
          = k :: ks.filter (fun k1 => k1 ≠ "") := by
        simp [List.filter_cons, hk]
      rw [List.foldl_cons, if_neg hk, hfil]
      simp only [List.length_cons]
      omega

/-- When the cache is at (or beyond) capacity, eviction removes at least
`entriesToRemove - 1` entries (all of the first ten keys except a possible
single empty-string key, which the `if (key)` guard skips). -/
theorem evictOldest_size_of_full (m : JsMap String CachedResult) (hwf : m.WF)
    (hfull : MAX_CACHE_SIZE_PER_SESSION ≤ m.size) :
    (evictOldest m).size + (entriesToRemove - 1) ≤ m.size := by
  have hks : (m.keysList.take entriesToRemove).length = entriesToRemove := by
    simp only [List.length_take]
    have hsz : m.size = m.keysList.length := by
      simp [JsMap.size, JsMap.keysList]
    simp [MAX_CACHE_SIZE_PER_SESSION, entriesToRemove] at *
    omega
  have hnd : (m.keysList.take entriesToRemove).Nodup :=
    List.Nodup.sublist (List.take_sublist entriesToRemove m.keysList) hwf
  have hin : ∀ k ∈ m.keysList.take entriesToRemove, k ≠ "" → (m.get k).isSome := by
    intro k hk _
    exact (lookupList_isSome_iff_mem m.entries k).mpr
      (List.take_subset entriesToRemove m.keysList hk)
  have hexact := foldDelete_size_exact (m.keysList.take entriesToRemove) m hwf hnd hin
  have hfilter := nodup_length_le_filter_ne_empty (m.keysList.take entriesToRemove) hnd
  unfold evictOldest
  omega

theorem evictOldest_WF (m : JsMap String CachedResult) (hwf : m.WF) :
    (evictOldest m).WF :=
  foldDelete_WF (m.keysList.take entriesToRemove) m hwf

theorem evictOldest_size_le (m : JsMap String CachedResult) :
    (evictOldest m).size ≤ m.size :=
  foldDelete_size_le (m.keysList.take entriesToRemove) m

/-- Over a prefix of the key list consisting of non-empty keys, the
eviction fold removes exactly the corresponding prefix of the entry list
(in insertion order). -/
theorem foldDelete_prefix_entries (ks : List String) :
    ∀ (m : JsMap String β), m.WF → ks = m.keysList.take ks.length →
    (∀ k ∈ ks, k ≠ "") →
    ((ks.foldl (fun acc k => if k = "" then acc else acc.delete k) m)).entries
      = m.entries.drop ks.length := by
  induction ks with
  | nil => intro m _ _ _; simp
  | cons k ks ih =>
    intro m hwf hpre hne
    cases hm : m.entries with
    | nil =>
      simp [JsMap.keysList, hm] at hpre
    | cons e tl =>
      have hkeys : m.keysList = e.1 :: tl.map Prod.fst := by
        simp [JsMap.keysList, hm]
      rw [hkeys] at hpre
      simp only [List.length_cons, List.take_succ_cons, List.cons.injEq] at hpre
      obtain ⟨hk1, hks⟩ := hpre
      have hwf1 : (e.1 :: tl.map Prod.fst).Nodup := by
        rw [← hkeys]
        exact hwf
      have hnotin : ¬ k ∈ tl.map Prod.fst := by
        rw [hk1]
        exact (List.nodup_cons.mp hwf1).1
      have hdel : (m.delete k).entries = tl := by
        show deleteList m.entries k = tl
        rw [hm]
        simp only [deleteList, hk1.symm, if_true]
        exact deleteList_of_not_mem tl k hnotin
      have hwf2 : (JsMap.mk tl : JsMap String β).WF := by
        simpa [JsMap.WF, JsMap.keysList] using (List.nodup_cons.mp hwf1).2
      have hih := ih ⟨tl⟩ hwf2 (by simpa [JsMap.keysList] using hks)
        (fun k1 h1 => hne k1 (by simp [h1]))
      rw [List.foldl_cons, if_neg (hne k (by simp))]
      have hmdel : m.delete k = (⟨tl⟩ : JsMap String β) := by
        rw [← hdel]
      rw [hmdel, hih]
      simp [hm]

theorem evictOldest_entries_of_full (m : JsMap String CachedResult) (hwf : m.WF)
    (hlen : entriesToRemove ≤ m.size)
    (hne : ∀ k ∈ m.keysList.take entriesToRemove, k ≠ "") :
    (evictOldest m).entries = m.entries.drop entriesToRemove := by
  have hks : (m.keysList.take entriesToRemove).length = entriesToRemove := by
    simp only [List.length_take]
    have hsz : m.size = m.keysList.length := by
      simp [JsMap.size, JsMap.keysList]
    omega
  have h := foldDelete_prefix_entries (m.keysList.take entriesToRemove) m hwf
    (by rw [hks]) hne
  rw [hks] at h
  exact h

end EvictLemmas

/- ============ Shape of `cacheResult` on the stored conversation ============ -/

/-- The entry list of a conversation's cache (empty when the conversation
does not exist yet). -/
def sessionCacheEntries (g : GlobalState) (sid : String) :
    List (String × CachedResult) :=
  match g.sessions.get sid with
  | none => []
  | some sd => sd.cache.entries

theorem sessionCacheEntries_setSession (g : GlobalState) (sid : String)
    (sd : SessionData) :
    sessionCacheEntries (setSession g sid sd) sid = sd.cache.entries := by
  simp [sessionCacheEntries, setSession, JsMap.get_set_self]

theorem cacheCorrectedText_no_correction (c : JsMap String CachedResult)
    (r : AnalysisResult) (now : Nat) (h : r.hasCorrection = false) :
    cacheCorrectedText c r now = c := by
  cases hrc : r.correction <;> simp [cacheCorrectedText, hrc, h]

theorem cacheCorrectedText_size_le (c : JsMap String CachedResult)
    (r : AnalysisResult) (now : Nat) :
    (cacheCorrectedText c r now).size ≤ c.size + 1 := by
  cases hrc : r.correction with
  | none => simp [cacheCorrectedText, hrc]
  | some corrected =>
    simp only [cacheCorrectedText, hrc]
    split
    · exact JsMap.size_set_le c corrected _
    · omega

theorem cacheCorrectedText_WF (c : JsMap String CachedResult)
    (r : AnalysisResult) (now : Nat) (h : c.WF) :
    (cacheCorrectedText c r now).WF := by
  cases hrc : r.correction with
  | none => simpa [cacheCorrectedText, hrc] using h
  | some corrected =>
    simp only [cacheCorrectedText, hrc]
    split
    · exact JsMap.WF_set c corrected _ h
    · exact h

theorem cacheBeforeInsert_of_lt (c : JsMap String CachedResult)
    (h : c.size < MAX_CACHE_SIZE_PER_SESSION) : cacheBeforeInsert c = c := by
  unfold cacheBeforeInsert
  rw [if_neg (by omega)]

theorem cacheBeforeInsert_of_full (c : JsMap String CachedResult)
    (h : MAX_CACHE_SIZE_PER_SESSION ≤ c.size) :
    cacheBeforeInsert c = evictOldest c := by
  unfold cacheBeforeInsert
  rw [if_pos h]

theorem cacheBeforeInsert_WF (c : JsMap String CachedResult) (h : c.WF) :
    (cacheBeforeInsert c).WF := by
  unfold cacheBeforeInsert
  split
  · exact evictOldest_WF c h
  · exact h

theorem cacheBeforeInsert_size_le (c : JsMap String CachedResult) (hwf : c.WF)
    (hsz : c.size ≤ MAX_CACHE_SIZE_PER_SESSION + 1) :
    (cacheBeforeInsert c).size ≤ MAX_CACHE_SIZE_PER_SESSION - 1 := by
  have hmax : MAX_CACHE_SIZE_PER_SESSION = 100 := rfl
  have hrem : entriesToRemove = 10 := rfl
  unfold cacheBeforeInsert
  split
  · rename_i hfull
    have hev := evictOldest_size_of_full c hwf hfull
    omega
  · rename_i hnot
    omega

theorem cacheResult_of_none (g : GlobalState) (sid prompt : String)
    (r : AnalysisResult) (now : Nat) (hgs : g.sessions.get sid = none) :
    cacheResult g sid prompt r now
      = setSession ⟨g.sessions.set sid emptySession, g.sessionLastActivity.set sid now⟩
          sid { emptySession with
            cache := cacheCorrectedText ((cacheBeforeInsert JsMap.empty).set prompt
              ⟨r, now⟩) r now } := by
  simp [cacheResult, getOrCreateSession, hgs, emptySession]

theorem cacheResult_of_some (g : GlobalState) (sid prompt : String)
    (r : AnalysisResult) (now : Nat) (sd : SessionData)
    (hgs : g.sessions.get sid = some sd) :
    cacheResult g sid prompt r now
      = setSession ⟨g.sessions, g.sessionLastActivity.set sid now⟩ sid
          { sd with cache := cacheCorrectedText ((cacheBeforeInsert sd.cache).set prompt
              ⟨r, now⟩) r now } := by
  simp [cacheResult, getOrCreateSession, hgs]

/-- Below capacity, a store of a correction-free result on a fresh key
appends a single entry at the end of the insertion order. -/
theorem cacheResult_append_below_capacity (g : GlobalState) (sid prompt : String)
    (r : AnalysisResult) (now : Nat)
    (hcorr : r.hasCorrection = false)
    (hlen : (sessionCacheEntries g sid).length < MAX_CACHE_SIZE_PER_SESSION)
    (hfresh : ¬ prompt ∈ (sessionCacheEntries g sid).map Prod.fst) :
    sessionCacheEntries (cacheResult g sid prompt r now) sid
      = sessionCacheEntries g sid ++ [(prompt, ⟨r, now⟩)] := by
  cases hgs : g.sessions.get sid with
  | none =>
    have hold : sessionCacheEntries g sid = [] := by
      simp [sessionCacheEntries, hgs]
    rw [cacheResult_of_none g sid prompt r now hgs, sessionCacheEntries_setSession,
      hold, cacheCorrectedText_no_correction _ r now hcorr]
    rfl
  | some sd =>
    have hold : sessionCacheEntries g sid = sd.cache.entries := by
      simp [sessionCacheEntries, hgs]
    rw [hold] at hlen hfresh
    have hlt : sd.cache.size < MAX_CACHE_SIZE_PER_SESSION := hlen
    rw [cacheResult_of_some g sid prompt r now sd hgs, sessionCacheEntries_setSession,
      hold, cacheCorrectedText_no_correction _ r now hcorr,
      cacheBeforeInsert_of_lt sd.cache hlt]
    exact setList_append_of_not_mem sd.cache.entries prompt _ hfresh

/-- At or beyond capacity, a store of a correction-free result on a fresh
key first drops the ten oldest entries, then appends the new one. -/
theorem cacheResult_evict_at_capacity (g : GlobalState) (sid prompt : String)
    (r : AnalysisResult) (now : Nat) (sd : SessionData)
    (hgs : g.sessions.get sid = some sd) (hwf : sd.cache.WF)
    (hcorr : r.hasCorrection = false)
    (hfull : MAX_CACHE_SIZE_PER_SESSION ≤ sd.cache.size)
    (hne : ∀ k ∈ sd.cache.keysList.take entriesToRemove, k ≠ "")
    (hfresh : ¬ prompt ∈ sd.cache.keysList) :
    sessionCacheEntries (cacheResult g sid prompt r now) sid
      = sd.cache.entries.drop entriesToRemove ++ [(prompt, ⟨r, now⟩)] := by
  rw [cacheResult_of_some g sid prompt r now sd hgs, sessionCacheEntries_setSession,
    cacheCorrectedText_no_correction _ r now hcorr,
    cacheBeforeInsert_of_full sd.cache hfull]
  have hevict := evictOldest_entries_of_full sd.cache hwf
    (Nat.le_trans (by decide) hfull) hne
  have hfresh1 : ¬ prompt ∈ (evictOldest sd.cache).entries.map Prod.fst := by
    rw [hevict]
    intro hmem
    rw [List.map_drop] at hmem
    exact hfresh (List.drop_subset entriesToRemove _ hmem)
  show setList (evictOldest sd.cache).entries prompt ⟨r, now⟩ = _
  rw [setList_append_of_not_mem _ prompt _ hfresh1, hevict]

/-- Folding correction-free stores of fresh distinct keys below capacity
appends them in order. -/
theorem c4_fold_below_capacity (sid : String) (r : AnalysisResult) (now : Nat)
    (hcorr : r.hasCorrection = false) :
    ∀ (todo : List String) (g : GlobalState),
    (sessionCacheEntries g sid).length + todo.length ≤ MAX_CACHE_SIZE_PER_SESSION →
    ((sessionCacheEntries g sid).map Prod.fst ++ todo).Nodup →
    sessionCacheEntries (todo.foldl (fun g1 k => cacheResult g1 sid k r now) g) sid
      = sessionCacheEntries g sid
          ++ todo.map (fun k => (k, (⟨r, now⟩ : CachedResult))) := by
  intro todo
  induction todo with
  | nil =>
    intro g _ _
    simp
  | cons k todo ih =>
    intro g hlen hnd
    have hdisj := (List.nodup_append.mp hnd).2.2
    have hfresh : ¬ k ∈ (sessionCacheEntries g sid).map Prod.fst := by
      intro hk
      exact hdisj hk (List.mem_cons_self k todo)
    have hstep := cacheResult_append_below_capacity g sid k r now hcorr
      (by simp only [List.length_cons] at hlen; omega) hfresh
    rw [List.foldl_cons]
    have hlen1 : (sessionCacheEntries (cacheResult g sid k r now) sid).length
        + todo.length ≤ MAX_CACHE_SIZE_PER_SESSION := by
      rw [hstep]
      simp only [List.length_append, List.length_cons, List.length_nil] at *
      omega
    have hnd1 : ((sessionCacheEntries (cacheResult g sid k r now) sid).map Prod.fst
        ++ todo).Nodup := by
      rw [hstep]
      simp only [List.map_append, List.map_cons, List.map_nil]
      rw [List.append_assoc]
      simpa using hnd
    have hih := ih (cacheResult g sid k r now) hlen1 hnd1
    rw [hih, hstep]
    simp

/-- C4 (amended): starting from an empty conversation, storing
`capacity + 1` distinct non-empty keys one at a time triggers exactly one
eviction: the first `capacity` inserts fill the cache in insertion order,
the last store first evicts the oldest `entriesToRemove = 10` entries and
then inserts, leaving exactly `capacity + 1 - evicted_count = 91` entries —
the surviving keys being precisely the inserted keys minus the 10
oldest. -/
theorem c4_capacity_eviction (sid : String) (r : AnalysisResult) (now : Nat)
    (ks100 : List String) (klast : String)
    (hcorr : r.hasCorrection = false)
    (hlen : ks100.length = MAX_CACHE_SIZE_PER_SESSION)
    (hnd : (ks100 ++ [klast]).Nodup)
    (hne : ∀ k ∈ ks100 ++ [klast], k ≠ "") :
    sessionCacheEntries
        ((ks100 ++ [klast]).foldl (fun g1 k => cacheResult g1 sid k r now)
          emptyGlobalState) sid
      = (ks100.drop entriesToRemove ++ [klast]).map
          (fun k => (k, (⟨r, now⟩ : CachedResult))) ∧
    (sessionCacheEntries
        ((ks100 ++ [klast]).foldl (fun g1 k => cacheResult g1 sid k r now)
          emptyGlobalState) sid).length
      = MAX_CACHE_SIZE_PER_SESSION + 1 - entriesToRemove := by
  have hnd100 : ks100.Nodup := (List.nodup_append.mp hnd).1
  have hempty : sessionCacheEntries emptyGlobalState sid = [] := rfl
  have hfold := c4_fold_below_capacity sid r now hcorr ks100 emptyGlobalState
    (by simp [hempty, hlen]) (by simpa [hempty] using hnd100)
  rw [hempty, List.nil_append] at hfold
  rw [List.foldl_append]
  have hsess : ∃ sd, (ks100.foldl (fun g1 k => cacheResult g1 sid k r now)
      emptyGlobalState).sessions.get sid = some sd ∧
      sd.cache.entries = ks100.map (fun k => (k, (⟨r, now⟩ : CachedResult))) := by
    cases hg : (ks100.foldl (fun g1 k => cacheResult g1 sid k r now)
        emptyGlobalState).sessions.get sid with
    | none =>
      exfalso
      have h0 : sessionCacheEntries (ks100.foldl
          (fun g1 k => cacheResult g1 sid k r now) emptyGlobalState) sid = [] := by
        simp [sessionCacheEntries, hg]
      rw [h0] at hfold
      have hnil : ks100 = [] := by
        have hl := congrArg List.length hfold
        simp only [List.length_nil, List.length_map] at hl
        exact List.length_eq_zero.mp hl.symm
      rw [hnil] at hlen
      simp [MAX_CACHE_SIZE_PER_SESSION] at hlen
    | some sd =>
      refine ⟨sd, rfl, ?_⟩
      have h0 : sessionCacheEntries (ks100.foldl
          (fun g1 k => cacheResult g1 sid k r now) emptyGlobalState) sid
          = sd.cache.entries := by
        simp [sessionCacheEntries, hg]
      rw [← h0, hfold]
  obtain ⟨sd, hgs, hentries⟩ := hsess
  have hkeys : sd.cache.entries.map Prod.fst = ks100 := by
    rw [hentries, List.map_map]
    have hfun : (Prod.fst ∘ fun k : String => (k, (⟨r, now⟩ : CachedResult))) = id := rfl
    rw [hfun, List.map_id]
  have hkeysL : sd.cache.keysList = ks100 := hkeys
  have hwf : sd.cache.WF := by
    show (sd.cache.entries.map Prod.fst).Nodup
    rw [hkeys]
    exact hnd100
  have hfull : MAX_CACHE_SIZE_PER_SESSION ≤ sd.cache.size := by
    have hsz : sd.cache.size = sd.cache.entries.length := rfl
    rw [hsz, hentries]
    simp [hlen]
  have hne1 : ∀ k ∈ sd.cache.keysList.take entriesToRemove, k ≠ "" := by
    intro k hk
    rw [hkeysL] at hk
    exact hne k (List.mem_append_left _ (List.take_subset entriesToRemove ks100 hk))
  have hfresh : ¬ klast ∈ sd.cache.keysList := by
    rw [hkeysL]
    have hdisj := (List.nodup_append.mp hnd).2.2
    intro hk
    exact hdisj hk (List.mem_singleton_self klast)
  have hB := cacheResult_evict_at_capacity _ sid klast r now sd hgs hwf hcorr
    hfull hne1 hfresh
  simp only [List.foldl_cons, List.foldl_nil] at hB ⊢
  rw [hB, hentries, ← List.map_drop]
  constructor
  · simp
  · simp only [List.length_append, List.length_map, List.length_drop,
      List.length_cons, List.length_nil]
    rw [hlen]
    decide

/-- Keys for the concrete C4 run: 101 pairwise-distinct one-character
strings. -/
def c4Key (i : Nat) : String := String.mk [Char.ofNat (65 + i)]

/-- A plain correction-free analysis result. -/
def c4PlainResult : AnalysisResult :=
  ⟨false, false, none, "looks fine", none, false, ""⟩

/-- C4 counterexample: inserting `capacity + 1 = 101` distinct keys one at
a time leaves 91 entries — not `capacity - evicted_count = 90` as the claim
states. -/
theorem c4_eviction_count_counterexample :
    (sessionCacheEntries
      (((List.range 101).map c4Key).foldl
        (fun g k => cacheResult g "s" k c4PlainResult 0) emptyGlobalState) "s").length
      = 91 ∧
    ¬ ((sessionCacheEntries
      (((List.range 101).map c4Key).foldl
        (fun g k => cacheResult g "s" k c4PlainResult 0) emptyGlobalState) "s").length
      = MAX_CACHE_SIZE_PER_SESSION - entriesToRemove) := by
  refine ⟨by decide, by decide⟩

/-- C4 witness: the concrete 101-key run, via the general theorem. -/
theorem c4_capacity_eviction_witness :
    (sessionCacheEntries
        ((((List.range 100).map c4Key) ++ [c4Key 100]).foldl
          (fun g1 k => cacheResult g1 "s" k c4PlainResult 0) emptyGlobalState)
        "s").length
      = MAX_CACHE_SIZE_PER_SESSION + 1 - entriesToRemove :=
  (c4_capacity_eviction "s" c4PlainResult 0 ((List.range 100).map c4Key) (c4Key 100)
    rfl (by decide) (by decide) (by decide)).2

/- ===================== Claim C10 ===================== -/

/-- C10: one store grows a conversation's cache to at most
`capacity + 1 = 101` entries: the capacity check runs only before the
original insert, and the synthetic corrected-text entry is added without a
re-check, so from any state within the bound the cache stays within
`capacity + 1` (and its keys stay duplicate-free); the witness shows the
bound `capacity + 1` is actually reached. -/
theorem c10_store_size_bound (g : GlobalState) (sid prompt : String)
    (r : AnalysisResult) (now : Nat)
    (hwf : ((sessionCacheEntries g sid).map Prod.fst).Nodup)
    (hsz : (sessionCacheEntries g sid).length ≤ MAX_CACHE_SIZE_PER_SESSION + 1) :
    (sessionCacheEntries (cacheResult g sid prompt r now) sid).length
        ≤ MAX_CACHE_SIZE_PER_SESSION + 1 ∧
    ((sessionCacheEntries (cacheResult g sid prompt r now) sid).map Prod.fst).Nodup := by
  have hmax : MAX_CACHE_SIZE_PER_SESSION = 100 := rfl
  cases hgs : g.sessions.get sid with
  | none =>
    rw [cacheResult_of_none g sid prompt r now hgs, sessionCacheEntries_setSession]
    constructor
    · have h2 := cacheCorrectedText_size_le
        ((cacheBeforeInsert JsMap.empty).set prompt ⟨r, now⟩) r now
      have h3 := JsMap.size_set_le (cacheBeforeInsert JsMap.empty) prompt
        (⟨r, now⟩ : CachedResult)
      have h4 : (cacheBeforeInsert JsMap.empty).size = 0 := rfl
      show (cacheCorrectedText ((cacheBeforeInsert JsMap.empty).set prompt
        ⟨r, now⟩) r now).size ≤ MAX_CACHE_SIZE_PER_SESSION + 1
      omega
    · show (cacheCorrectedText ((cacheBeforeInsert JsMap.empty).set prompt
        ⟨r, now⟩) r now).WF
      exact cacheCorrectedText_WF _ r now
        (JsMap.WF_set _ prompt _ (cacheBeforeInsert_WF _ JsMap.WF_empty))
  | some sd =>
    have hold : sessionCacheEntries g sid = sd.cache.entries := by
      simp [sessionCacheEntries, hgs]
    rw [hold] at hwf hsz
    have hwfm : sd.cache.WF := hwf
    have hszm : sd.cache.size ≤ MAX_CACHE_SIZE_PER_SESSION + 1 := hsz
    rw [cacheResult_of_some g sid prompt r now sd hgs, sessionCacheEntries_setSession]
    have h1wf : (cacheBeforeInsert sd.cache).WF := cacheBeforeInsert_WF _ hwfm
    have h1sz : (cacheBeforeInsert sd.cache).size ≤ MAX_CACHE_SIZE_PER_SESSION - 1 :=
      cacheBeforeInsert_size_le _ hwfm hszm
    constructor
    · have h2 := cacheCorrectedText_size_le
        ((cacheBeforeInsert sd.cache).set prompt ⟨r, now⟩) r now
      have h3 := JsMap.size_set_le (cacheBeforeInsert sd.cache) prompt
        (⟨r, now⟩ : CachedResult)
      show (cacheCorrectedText ((cacheBeforeInsert sd.cache).set prompt
        ⟨r, now⟩) r now).size ≤ MAX_CACHE_SIZE_PER_SESSION + 1
      omega
    · show (cacheCorrectedText ((cacheBeforeInsert sd.cache).set prompt
        ⟨r, now⟩) r now).WF
      exact cacheCorrectedText_WF _ r now (JsMap.WF_set _ prompt _ h1wf)

/-- C10 witness: a conversation filled with 99 entries plus a store whose
outcome carries a correction reaches exactly `capacity + 1 = 101` entries,
within the proved bound. -/
theorem c10_store_size_bound_witness :
    (sessionCacheEntries
      (cacheResult
        (((List.range 99).map c4Key).foldl
          (fun g k => cacheResult g "s" k c4PlainResult 0) emptyGlobalState)
        "s" "orig"
        { skip := false
          hasCorrection := true
          correction := some "corrected"
          explanation := "- fix"
          alternative := none
          significant := true
          originalPrompt := "orig" } 0) "s").length = MAX_CACHE_SIZE_PER_SESSION + 1 ∧
    (sessionCacheEntries
      (cacheResult
        (((List.range 99).map c4Key).foldl
          (fun g k => cacheResult g "s" k c4PlainResult 0) emptyGlobalState)
        "s" "orig"
        { skip := false
          hasCorrection := true
          correction := some "corrected"
          explanation := "- fix"
          alternative := none
          significant := true
          originalPrompt := "orig" } 0) "s").length ≤ MAX_CACHE_SIZE_PER_SESSION + 1 :=
  ⟨by decide,
   (c10_store_size_bound
      (((List.range 99).map c4Key).foldl
        (fun g k => cacheResult g "s" k c4PlainResult 0) emptyGlobalState)
      "s" "orig"
      { skip := false
        hasCorrection := true
        correction := some "corrected"
        explanation := "- fix"
        alternative := none
        significant := true
        originalPrompt := "orig" } 0 (by decide) (by decide)).1⟩

/- ===================== Claim C8 ===================== -/

theorem clearInFlightRequest_get_none (g : GlobalState) (sid p : String) :
    ∀ sd, (clearInFlightRequest g sid p).sessions.get sid = some sd →
      sd.inFlight.get p = none := by
  intro sd hsd
  cases hgs : g.sessions.get sid with
  | none =>
    simp only [clearInFlightRequest, hgs] at hsd
    exact Option.noConfusion hsd
  | some sd0 =>
    simp only [clearInFlightRequest, hgs, setSession, JsMap.get_set_self,
      Option.some.injEq] at hsd
    rw [← hsd]
    exact JsMap.get_delete_self sd0.inFlight p

theorem cacheResult_preserves_inflight_none (g : GlobalState) (sid p prompt : String)
    (r : AnalysisResult) (now : Nat)
    (hpre : ∀ sd, g.sessions.get sid = some sd → sd.inFlight.get p = none) :
    ∀ sd, (cacheResult g sid prompt r now).sessions.get sid = some sd →
      sd.inFlight.get p = none := by
  intro sd hsd
  cases hgs : g.sessions.get sid with
  | none =>
    rw [cacheResult_of_none g sid prompt r now hgs] at hsd
    simp only [setSession, JsMap.get_set_self, Option.some.injEq] at hsd
    rw [← hsd]
    rfl
  | some sd0 =>
    rw [cacheResult_of_some g sid prompt r now sd0 hgs] at hsd
    simp only [setSession, JsMap.get_set_self, Option.some.injEq] at hsd
    rw [← hsd]
    exact hpre sd0 hgs

theorem addRecentPrompt_preserves_inflight_none (g : GlobalState) (sid p prompt : String)
    (corrected : Option String) (now : Nat)
    (hpre : ∀ sd, g.sessions.get sid = some sd → sd.inFlight.get p = none) :
    ∀ sd, (addRecentPrompt g sid prompt corrected now).sessions.get sid = some sd →
      sd.inFlight.get p = none := by
  intro sd hsd
  cases hgs : g.sessions.get sid with
  | none =>
    simp only [addRecentPrompt, getOrCreateSession, hgs] at hsd
    split at hsd
    · simp only [JsMap.get_set_self, Option.some.injEq] at hsd
      rw [← hsd]
      rfl
    · simp only [setSession, JsMap.get_set_self, Option.some.injEq] at hsd
      rw [← hsd]
      rfl
  | some sd0 =>
    simp only [addRecentPrompt, getOrCreateSession, hgs] at hsd
    split at hsd
    · rw [hgs] at hsd
      injection hsd with hsd2
      rw [← hsd2]
      exact hpre sd0 hgs
    · simp only [setSession, JsMap.get_set_self, Option.some.injEq] at hsd
      rw [← hsd]
      exact hpre sd0 hgs

theorem applyStep_resolve_pending (s : MState) (h : Nat) (r : AnalysisResult)
    (i : Nat) (t : MTask)
    (hp : s.handles.get h = some .pending)
    (hidx : s.tasks.findIdx? (fun t1 => t1.phase = .calling h) = some i)
    (ht : s.tasks[i]? = some t) :
    applyStep s (.resolve h r)
      = { s with
          g := addRecentPrompt
            (cacheResult (clearInFlightRequest s.g t.sid t.prompt) t.sid t.prompt r
              s.now)
            t.sid t.prompt (if r.hasCorrection then r.correction else none) s.now
          tasks := s.tasks.set i { t with phase := .doneOk r }
          handles := s.handles.set h (.resolved r) } := by
  simp [applyStep, hp, hidx, ht]

theorem applyStep_reject_pending (s : MState) (h : Nat) (i : Nat) (t : MTask)
    (hp : s.handles.get h = some .pending)
    (hidx : s.tasks.findIdx? (fun t1 => t1.phase = .calling h) = some i)
    (ht : s.tasks[i]? = some t) :
    applyStep s (.reject h)
      = { s with
          g := clearInFlightRequest s.g t.sid t.prompt
          tasks := s.tasks.set i { t with phase := .doneErr }
          handles := s.handles.set h .rejected } := by
  simp [applyStep, hp, hidx, ht]

/-- C8 (amended): an in-flight handle is registered only in the same atomic
step as a cache-miss check (so the key was absent from the cache at
registration time); when the handle settles — resolve or reject — the
guaranteed-cleanup continuation removes the key from the in-flight map in
both cases (a subsequent store of the same result writes only the cache);
and settling an already-settled handle is a no-op, so the cleanup runs
exactly once per handle.  The original claim's stronger invariant — a key
in the in-flight map is never simultaneously in the cache — is false: see
the counterexample, where another prompt's correction inserts a synthetic
cache entry for a key still in flight. -/
theorem c8_inflight_cleanup (s : MState) (g : GlobalState) (sid prompt : String)
    (fh now h : Nat) (r r1 : AnalysisResult) (i : Nat) (t : MTask) :
    ((handlerPrologue g sid prompt fh now).1 = .registered fh →
      (getCachedResult g sid prompt now).1 = none) ∧
    (s.handles.get h = some .pending →
      s.tasks.findIdx? (fun t1 => t1.phase = .calling h) = some i →
      s.tasks[i]? = some t →
      (∀ sd, (applyStep s (.resolve h r)).g.sessions.get t.sid = some sd →
        sd.inFlight.get t.prompt = none) ∧
      (∀ sd, (applyStep s (.reject h)).g.sessions.get t.sid = some sd →
        sd.inFlight.get t.prompt = none)) ∧
    (s.handles.get h = some (.resolved r1) →
      applyStep s (.resolve h r) = s ∧ applyStep s (.reject h) = s) ∧
    (s.handles.get h = some .rejected →
      applyStep s (.resolve h r) = s ∧ applyStep s (.reject h) = s) := by
  refine ⟨?_, ?_, ?_, ?_⟩
  · intro hreg
    rcases hc : getCachedResult g sid prompt now with ⟨cres, g1⟩
    cases cres with
    | none => rfl
    | some r2 =>
      exfalso
      simp only [handlerPrologue, hc] at hreg
      cases hreg
  · intro hp hidx ht
    constructor
    · rw [applyStep_resolve_pending s h r i t hp hidx ht]
      exact addRecentPrompt_preserves_inflight_none _ t.sid t.prompt t.prompt _ s.now
        (cacheResult_preserves_inflight_none _ t.sid t.prompt t.prompt r s.now
          (clearInFlightRequest_get_none s.g t.sid t.prompt))
    · rw [applyStep_reject_pending s h i t hp hidx ht]
      exact clearInFlightRequest_get_none s.g t.sid t.prompt
  · intro hres
    constructor <;> simp [applyStep, hres]
  · intro hrej
    constructor <;> simp [applyStep, hrej]

/-- C8 counterexample: two concurrent tasks for prompts "K" and "A" in the
same conversation; the task for "A" resolves with a correction whose
corrected text is the literal "K" while "K" is still in flight.  In the
resulting reachable state the key "K" is simultaneously present in the
in-flight map and in the cache map, refuting the claimed invariant. -/
theorem c8_inflight_cache_overlap_counterexample :
    ((applyTrace (mstateOfTasks [⟨"s", "K", .start⟩, ⟨"s", "A", .start⟩])
        [.run 0, .run 1,
          .resolve 1 ⟨false, true, some "K", "- fix", none, true, "A"⟩]).g.sessions.get
        "s").map (fun sd => ((sd.inFlight.get "K").isSome, (sd.cache.get "K").isSome))
      = some (true, true) := by
  decide

/-- C8 witness: after one task registers prompt "p" (handle 0, pending),
resolving the handle leaves the conversation's in-flight map without the
key; the registration itself happened on a cache miss. -/
theorem c8_inflight_cleanup_witness :
    (getCachedResult emptyGlobalState "s" "p" 0).1 = none ∧
    ((applyStep (applyTrace (mstateOfTasks [⟨"s", "p", .start⟩]) [.run 0])
        (.resolve 0 ⟨false, false, none, "ok", none, false, "p"⟩)).g.sessions.get
        "s").map (fun sd => sd.inFlight.get "p") = some none := by
  constructor
  · exact (c8_inflight_cleanup (applyTrace (mstateOfTasks [⟨"s", "p", .start⟩]) [.run 0])
      emptyGlobalState "s" "p" 0 0 0 ⟨false, false, none, "ok", none, false, "p"⟩
      ⟨false, false, none, "ok", none, false, "p"⟩ 0 ⟨"s", "p", .calling 0⟩).1 (by decide)
  · have hclean := ((c8_inflight_cleanup
      (applyTrace (mstateOfTasks [⟨"s", "p", .start⟩]) [.run 0])
      emptyGlobalState "s" "p" 0 0 0 ⟨false, false, none, "ok", none, false, "p"⟩
      ⟨false, false, none, "ok", none, false, "p"⟩ 0 ⟨"s", "p", .calling 0⟩).2.1
      (by decide) (by decide) (by decide)).1
    cases hg : ((applyStep (applyTrace (mstateOfTasks [⟨"s", "p", .start⟩]) [.run 0])
        (.resolve 0 ⟨false, false, none, "ok", none, false, "p"⟩)).g.sessions.get
        "s") with
    | none => exact absurd hg (by decide)
    | some sd =>
      show some (sd.inFlight.get "p") = some none
      rw [hclean sd hg]

/- ===================== Claim C1 ===================== -/

theorem mem_of_getElem?_eq_some {α : Type} {l : List α} {i : Nat} {a : α}
    (h : l[i]? = some a) : a ∈ l := by
  induction l generalizing i with
  | nil => simp at h
  | cons x xs ih =>
    cases i with
    | zero =>
      simp only [List.getElem?_cons_zero, Option.some.injEq] at h
      simp [h]
    | succ j =>
      simp only [List.getElem?_cons_succ] at h
      exact List.mem_cons_of_mem x (ih h)

theorem applyStep_tick (s : MState) (d : Nat) :
    applyStep s (.tick d) = { s with now := s.now + d } := rfl

theorem applyStep_run_none (s : MState) (i : Nat) (hti : s.tasks[i]? = none) :
    applyStep s (.run i) = s := by
  simp [applyStep, hti]

theorem applyStep_run_start_registered (s : MState) (i : Nat) (t : MTask)
    (g1 : GlobalState) (hti : s.tasks[i]? = some t) (hph : t.phase = .start)
    (hpro : handlerPrologue s.g t.sid t.prompt s.nextHandle s.now
      = (.registered s.nextHandle, g1)) :
    applyStep s (.run i)
      = { s with
          g := g1
          tasks := s.tasks.set i { t with phase := .calling s.nextHandle }
          handles := s.handles.set s.nextHandle .pending
          nextHandle := s.nextHandle + 1
          upstreamCalls := s.upstreamCalls + 1 } := by
  simp [applyStep, hti, hph, hpro]

theorem applyStep_run_start_await (s : MState) (i : Nat) (t : MTask) (h0 : Nat)
    (g1 : GlobalState) (hti : s.tasks[i]? = some t) (hph : t.phase = .start)
    (hpro : handlerPrologue s.g t.sid t.prompt s.nextHandle s.now
      = (.awaitInFlight h0, g1)) :
    applyStep s (.run i)
      = { s with
          g := g1
          tasks := s.tasks.set i { t with phase := .awaiting h0 } } := by
  simp [applyStep, hti, hph, hpro]

theorem applyStep_run_calling (s : MState) (i : Nat) (t : MTask) (h0 : Nat)
    (hti : s.tasks[i]? = some t) (hph : t.phase = .calling h0) :
    applyStep s (.run i) = s := by
  simp [applyStep, hti, hph]

theorem applyStep_run_doneOk (s : MState) (i : Nat) (t : MTask) (r : AnalysisResult)
    (hti : s.tasks[i]? = some t) (hph : t.phase = .doneOk r) :
    applyStep s (.run i) = s := by
  simp [applyStep, hti, hph]

theorem applyStep_run_doneErr (s : MState) (i : Nat) (t : MTask)
    (hti : s.tasks[i]? = some t) (hph : t.phase = .doneErr) :
    applyStep s (.run i) = s := by
  simp [applyStep, hti, hph]

theorem applyStep_run_awaiting_pending (s : MState) (i : Nat) (t : MTask) (h0 : Nat)
    (hti : s.tasks[i]? = some t) (hph : t.phase = .awaiting h0)
    (hh : s.handles.get h0 = some .pending) :
    applyStep s (.run i) = s := by
  simp [applyStep, hti, hph, hh]

theorem applyStep_run_awaiting_none (s : MState) (i : Nat) (t : MTask) (h0 : Nat)
    (hti : s.tasks[i]? = some t) (hph : t.phase = .awaiting h0)
    (hh : s.handles.get h0 = none) :
    applyStep s (.run i) = s := by
  simp [applyStep, hti, hph, hh]

theorem applyStep_run_awaiting_resolved (s : MState) (i : Nat) (t : MTask) (h0 : Nat)
    (r : AnalysisResult) (hti : s.tasks[i]? = some t) (hph : t.phase = .awaiting h0)
    (hh : s.handles.get h0 = some (.resolved r)) :
    applyStep s (.run i)
      = { s with tasks := s.tasks.set i { t with phase := .doneOk r } } := by
  simp [applyStep, hti, hph, hh]

theorem applyStep_run_awaiting_rejected (s : MState) (i : Nat) (t : MTask) (h0 : Nat)
    (hti : s.tasks[i]? = some t) (hph : t.phase = .awaiting h0)
    (hh : s.handles.get h0 = some .rejected) :
    applyStep s (.run i)
      = { s with tasks := s.tasks.set i { t with phase := .doneErr } } := by
  simp [applyStep, hti, hph, hh]

theorem applyStep_resolve_no_handle (s : MState) (h : Nat) (r : AnalysisResult)
    (hh : s.handles.get h = none) : applyStep s (.resolve h r) = s := by
  simp [applyStep, hh]

theorem applyStep_resolve_resolved (s : MState) (h : Nat) (r r1 : AnalysisResult)
    (hh : s.handles.get h = some (.resolved r1)) : applyStep s (.resolve h r) = s := by
  simp [applyStep, hh]

theorem applyStep_resolve_rejected (s : MState) (h : Nat) (r : AnalysisResult)
    (hh : s.handles.get h = some .rejected) : applyStep s (.resolve h r) = s := by
  simp [applyStep, hh]

theorem applyStep_resolve_pending_noidx (s : MState) (h : Nat) (r : AnalysisResult)
    (hp : s.handles.get h = some .pending)
    (hidx : s.tasks.findIdx? (fun t1 => t1.phase = .calling h) = none) :
    applyStep s (.resolve h r) = { s with handles := s.handles.set h (.resolved r) } := by
  simp [applyStep, hp, hidx]

theorem applyStep_resolve_pending_notask (s : MState) (h : Nat) (r : AnalysisResult)
    (i : Nat) (hp : s.handles.get h = some .pending)
    (hidx : s.tasks.findIdx? (fun t1 => t1.phase = .calling h) = some i)
    (hti : s.tasks[i]? = none) :
    applyStep s (.resolve h r) = { s with handles := s.handles.set h (.resolved r) } := by
  simp [applyStep, hp, hidx, hti]

theorem applyStep_reject_no_handle (s : MState) (h : Nat)
    (hh : s.handles.get h = none) : applyStep s (.reject h) = s := by
  simp [applyStep, hh]

theorem applyStep_reject_resolved (s : MState) (h : Nat) (r1 : AnalysisResult)
    (hh : s.handles.get h = some (.resolved r1)) : applyStep s (.reject h) = s := by
  simp [applyStep, hh]

theorem applyStep_reject_rejected (s : MState) (h : Nat)
    (hh : s.handles.get h = some .rejected) : applyStep s (.reject h) = s := by
  simp [applyStep, hh]

theorem applyStep_reject_pending_noidx (s : MState) (h : Nat)
    (hp : s.handles.get h = some .pending)
    (hidx : s.tasks.findIdx? (fun t1 => t1.phase = .calling h) = none) :
    applyStep s (.reject h) = { s with handles := s.handles.set h .rejected } := by
  simp [applyStep, hp, hidx]

theorem applyStep_reject_pending_notask (s : MState) (h : Nat) (i : Nat)
    (hp : s.handles.get h = some .pending)
    (hidx : s.tasks.findIdx? (fun t1 => t1.phase = .calling h) = some i)
    (hti : s.tasks[i]? = none) :
    applyStep s (.reject h) = { s with handles := s.handles.set h .rejected } := by
  simp [applyStep, hp, hidx, hti]

theorem handlerPrologue_of_no_session (g : GlobalState) (sid p : String)
    (fh now : Nat) (hget : g.sessions.get sid = none) :
    handlerPrologue g sid p fh now
      = (.registered fh, setInFlightRequest g sid p fh now) := by
  simp [handlerPrologue, getCachedResult, getInFlightRequest, hget]

theorem handlerPrologue_of_inflight (g : GlobalState) (sid p : String)
    (fh now h0 : Nat) (sd : SessionData) (hsd : g.sessions.get sid = some sd)
    (hc : sd.cache.get p = none) (hif : sd.inFlight.get p = some h0) :
    handlerPrologue g sid p fh now = (.awaitInFlight h0, g) := by
  simp [handlerPrologue, getCachedResult, getInFlightRequest, hsd, hc, hif]

theorem setInFlightRequest_session_of_none (g : GlobalState) (sid p : String)
    (fh now : Nat) (hget : g.sessions.get sid = none) :
    (setInFlightRequest g sid p fh now).sessions.get sid
      = some { emptySession with inFlight := JsMap.empty.set p fh } := by
  simp [setInFlightRequest, getOrCreateSession, hget, setSession, JsMap.get_set_self,
    emptySession]

/-- A trace with no settlement events (the window "before the first
upstream call completes"). -/
def noSettle (tr : List MStep) : Prop := ∀ st ∈ tr, st.isSettle = false

/-- Invariant of a burst of identical submissions before any promise
settles: either nothing has started (no session, no handles, no upstream
call, all tasks unstarted), or exactly one upstream call was issued,
registered as handle 0 in the conversation's in-flight map, the cache has
no entry for the prompt, and every task is unstarted, the caller of handle
0, or awaiting handle 0. -/
def CoalesceInv1 (sid p : String) (s : MState) : Prop :=
  (∀ t ∈ s.tasks, t.sid = sid ∧ t.prompt = p) ∧
  ((s.g.sessions.get sid = none ∧ (∀ h, s.handles.get h = none) ∧
      s.nextHandle = 0 ∧ s.upstreamCalls = 0 ∧ ∀ t ∈ s.tasks, t.phase = .start) ∨
   (∃ sd, s.g.sessions.get sid = some sd ∧ sd.cache.get p = none ∧
      sd.inFlight.get p = some 0 ∧ s.handles.get 0 = some .pending ∧
      (∀ h, h ≠ 0 → s.handles.get h = none) ∧ s.nextHandle = 1 ∧
      s.upstreamCalls = 1 ∧
      ∀ t ∈ s.tasks, t.phase = .start ∨ t.phase = .calling 0 ∨ t.phase = .awaiting 0))

/-- Invariant after every submission has passed its miss/in-flight check:
exactly one upstream call, handle 0 the only handle, and every task either
still waits on handle 0 or is done with the outcome handle 0 settled
with. -/
def CoalesceInv2 (s : MState) : Prop :=
  s.upstreamCalls = 1 ∧
  (∃ st0, s.handles.get 0 = some st0) ∧
  (∀ h, h ≠ 0 → s.handles.get h = none) ∧
  ∀ t ∈ s.tasks,
    t.phase = .calling 0 ∨ t.phase = .awaiting 0 ∨
    (∃ r, t.phase = .doneOk r ∧ s.handles.get 0 = some (.resolved r)) ∨
    (t.phase = .doneErr ∧ s.handles.get 0 = some .rejected)

theorem coalesceInv1_init (n : Nat) (sid p : String) :
    CoalesceInv1 sid p (initMState n sid p) := by
  constructor
  · intro t ht
    rw [List.eq_of_mem_replicate ht]
    exact ⟨rfl, rfl⟩
  · left
    refine ⟨rfl, fun h => rfl, rfl, rfl, ?_⟩
    intro t ht
    rw [List.eq_of_mem_replicate ht]

theorem coalesceInv1_step (sid p : String) (s : MState) (st : MStep)
    (hst : st.isSettle = false) (hinv : CoalesceInv1 sid p s) :
    CoalesceInv1 sid p (applyStep s st) := by
  obtain ⟨htask, hcase⟩ := hinv
  cases st with
  | tick d => exact ⟨htask, hcase⟩
  | resolve h r => simp [MStep.isSettle] at hst
  | reject h => simp [MStep.isSettle] at hst
  | run i =>
    cases hti : s.tasks[i]? with
    | none =>
      rw [applyStep_run_none s i hti]
      exact ⟨htask, hcase⟩
    | some t =>
      have htmem : t ∈ s.tasks := mem_of_getElem?_eq_some hti
      obtain ⟨hsid, hpr⟩ := htask t htmem
      rcases hcase with ⟨hsess, hhand, hnext, hcalls, hstart⟩ |
        ⟨sd, hsd, hc, hif, hh0, hhh, hnext, hcalls, hphases⟩
      · -- nothing started yet: this run registers handle 0
        have hphA := hstart t htmem
        have hpro := handlerPrologue_of_no_session s.g sid p s.nextHandle s.now hsess
        rw [← hsid, ← hpr] at hpro
        rw [applyStep_run_start_registered s i t _ hti hphA hpro]
        constructor
        · intro t1 htm1
          rcases List.mem_or_eq_of_mem_set htm1 with hm | he
          · exact htask t1 hm
          · rw [he]
            exact ⟨hsid, hpr⟩
        · right
          refine ⟨{ emptySession with inFlight := JsMap.empty.set t.prompt s.nextHandle },
            ?_, rfl, ?_, ?_, ?_, ?_, ?_, ?_⟩
          · rw [hsid]
            exact setInFlightRequest_session_of_none s.g sid t.prompt s.nextHandle
              s.now hsess
          · rw [hpr, hnext]
            exact JsMap.get_set_self JsMap.empty p 0
          · rw [hnext]
            exact JsMap.get_set_self s.handles 0 .pending
          · intro h hne
            rw [hnext, JsMap.get_set_ne s.handles 0 h .pending hne]
            exact hhand h
          · rw [hnext]
          · rw [hcalls]
          · intro t1 htm1
            rcases List.mem_or_eq_of_mem_set htm1 with hm | he
            · exact Or.inl (hstart t1 hm)
            · rw [he, hnext]
              exact Or.inr (Or.inl rfl)
      · -- one registration exists
        rcases hphases t htmem with hph | hph | hph
        · -- an unstarted task hits the in-flight registry and awaits
          have hpro := handlerPrologue_of_inflight s.g sid p s.nextHandle s.now 0 sd
            hsd hc hif
          rw [← hsid, ← hpr] at hpro
          rw [applyStep_run_start_await s i t 0 _ hti hph hpro]
          constructor
          · intro t1 htm1
            rcases List.mem_or_eq_of_mem_set htm1 with hm | he
            · exact htask t1 hm
            · rw [he]
              exact ⟨hsid, hpr⟩
          · right
            refine ⟨sd, hsd, hc, hif, hh0, hhh, hnext, hcalls, ?_⟩
            intro t1 htm1
            rcases List.mem_or_eq_of_mem_set htm1 with hm | he
            · exact hphases t1 hm
            · rw [he]
              exact Or.inr (Or.inr rfl)
        · rw [applyStep_run_calling s i t 0 hti hph]
          exact ⟨htask, Or.inr ⟨sd, hsd, hc, hif, hh0, hhh, hnext, hcalls, hphases⟩⟩
        · rw [applyStep_run_awaiting_pending s i t 0 hti hph hh0]
          exact ⟨htask, Or.inr ⟨sd, hsd, hc, hif, hh0, hhh, hnext, hcalls, hphases⟩⟩

theorem coalesceInv1_trace (sid p : String) (tr : List MStep) :
    ∀ (s : MState), noSettle tr → CoalesceInv1 sid p s →
      CoalesceInv1 sid p (applyTrace s tr) := by
  induction tr with
  | nil =>
    intro s _ hinv
    exact hinv
  | cons st tr ih =>
    intro s hns hinv
    have hst : st.isSettle = false := hns st (by simp)
    have hns1 : noSettle tr := fun st1 h1 => hns st1 (by simp [h1])
    exact ih (applyStep s st) hns1 (coalesceInv1_step sid p s st hst hinv)

theorem coalesceInv2_step (s : MState) (st : MStep) (hinv : CoalesceInv2 s) :
    CoalesceInv2 (applyStep s st) := by
  obtain ⟨hcalls, ⟨st0, hh0⟩, hhh, hph⟩ := hinv
  cases st with
  | tick d => exact ⟨hcalls, ⟨st0, hh0⟩, hhh, hph⟩
  | run i =>
    cases hti : s.tasks[i]? with
    | none =>
      rw [applyStep_run_none s i hti]
      exact ⟨hcalls, ⟨st0, hh0⟩, hhh, hph⟩
    | some t =>
      have htmem : t ∈ s.tasks := mem_of_getElem?_eq_some hti
      rcases hph t htmem with hp1 | hp1 | ⟨r0, hp1, hres⟩ | ⟨hp1, hrej⟩
      · rw [applyStep_run_calling s i t 0 hti hp1]
        exact ⟨hcalls, ⟨st0, hh0⟩, hhh, hph⟩
      · cases st0 with
        | pending =>
          rw [applyStep_run_awaiting_pending s i t 0 hti hp1 hh0]
          exact ⟨hcalls, ⟨.pending, hh0⟩, hhh, hph⟩
        | resolved r =>
          rw [applyStep_run_awaiting_resolved s i t 0 r hti hp1 hh0]
          refine ⟨hcalls, ⟨.resolved r, hh0⟩, hhh, ?_⟩
          intro t1 htm1
          rcases List.mem_or_eq_of_mem_set htm1 with hm | he
          · exact hph t1 hm
          · rw [he]
            exact Or.inr (Or.inr (Or.inl ⟨r, rfl, hh0⟩))
        | rejected =>
          rw [applyStep_run_awaiting_rejected s i t 0 hti hp1 hh0]
          refine ⟨hcalls, ⟨.rejected, hh0⟩, hhh, ?_⟩
          intro t1 htm1
          rcases List.mem_or_eq_of_mem_set htm1 with hm | he
          · exact hph t1 hm
          · rw [he]
            exact Or.inr (Or.inr (Or.inr ⟨rfl, hh0⟩))
      · rw [applyStep_run_doneOk s i t r0 hti hp1]
        exact ⟨hcalls, ⟨st0, hh0⟩, hhh, hph⟩
      · rw [applyStep_run_doneErr s i t hti hp1]
        exact ⟨hcalls, ⟨st0, hh0⟩, hhh, hph⟩
  | resolve h r =>
    by_cases hzero : h = 0
    · subst hzero
      cases st0 with
      | pending =>
        have hnew : ∀ t1 ∈ s.tasks,
            t1.phase = .calling 0 ∨ t1.phase = .awaiting 0 := by
          intro t1 htm1
          rcases hph t1 htm1 with h1 | h1 | ⟨r0, hp1, hres⟩ | ⟨hp1, hrej⟩
          · exact Or.inl h1
          · exact Or.inr h1
          · rw [hh0] at hres
            simp at hres
          · rw [hh0] at hrej
            simp at hrej
        cases hidx : s.tasks.findIdx? (fun t1 => t1.phase = .calling 0) with
        | none =>
          rw [applyStep_resolve_pending_noidx s 0 r hh0 hidx]
          refine ⟨hcalls, ⟨.resolved r, JsMap.get_set_self s.handles 0 _⟩, ?_, ?_⟩
          · intro h1 hne
            rw [JsMap.get_set_ne s.handles 0 h1 _ hne]
            exact hhh h1 hne
          · intro t1 htm1
            rcases hnew t1 htm1 with h1 | h1
            · exact Or.inl h1
            · exact Or.inr (Or.inl h1)
        | some i =>
          cases hti : s.tasks[i]? with
          | none =>
            rw [applyStep_resolve_pending_notask s 0 r i hh0 hidx hti]
            refine ⟨hcalls, ⟨.resolved r, JsMap.get_set_self s.handles 0 _⟩, ?_, ?_⟩
            · intro h1 hne
              rw [JsMap.get_set_ne s.handles 0 h1 _ hne]
              exact hhh h1 hne
            · intro t1 htm1
              rcases hnew t1 htm1 with h1 | h1
              · exact Or.inl h1
              · exact Or.inr (Or.inl h1)
          | some t =>
            rw [applyStep_resolve_pending s 0 r i t hh0 hidx hti]
            refine ⟨hcalls, ⟨.resolved r, JsMap.get_set_self s.handles 0 _⟩, ?_, ?_⟩
            · intro h1 hne
              rw [JsMap.get_set_ne s.handles 0 h1 _ hne]
              exact hhh h1 hne
            · intro t1 htm1
              rcases List.mem_or_eq_of_mem_set htm1 with hm | he
              · rcases hnew t1 hm with h1 | h1
                · exact Or.inl h1
                · exact Or.inr (Or.inl h1)
              · rw [he]
                exact Or.inr (Or.inr (Or.inl
                  ⟨r, rfl, JsMap.get_set_self s.handles 0 _⟩))
      | resolved r1 =>
        rw [applyStep_resolve_resolved s 0 r r1 hh0]
        exact ⟨hcalls, ⟨.resolved r1, hh0⟩, hhh, hph⟩
      | rejected =>
        rw [applyStep_resolve_rejected s 0 r hh0]
        exact ⟨hcalls, ⟨.rejected, hh0⟩, hhh, hph⟩
    · rw [applyStep_resolve_no_handle s h r (hhh h hzero)]
      exact ⟨hcalls, ⟨st0, hh0⟩, hhh, hph⟩
  | reject h =>
    by_cases hzero : h = 0
    · subst hzero
      cases st0 with
      | pending =>
        have hnew : ∀ t1 ∈ s.tasks,
            t1.phase = .calling 0 ∨ t1.phase = .awaiting 0 := by
          intro t1 htm1
          rcases hph t1 htm1 with h1 | h1 | ⟨r0, hp1, hres⟩ | ⟨hp1, hrej⟩
          · exact Or.inl h1
          · exact Or.inr h1
          · rw [hh0] at hres
            simp at hres
          · rw [hh0] at hrej
            simp at hrej
        cases hidx : s.tasks.findIdx? (fun t1 => t1.phase = .calling 0) with
        | none =>
          rw [applyStep_reject_pending_noidx s 0 hh0 hidx]
          refine ⟨hcalls, ⟨.rejected, JsMap.get_set_self s.handles 0 _⟩, ?_, ?_⟩
          · intro h1 hne
            rw [JsMap.get_set_ne s.handles 0 h1 _ hne]
            exact hhh h1 hne
          · intro t1 htm1
            rcases hnew t1 htm1 with h1 | h1
            · exact Or.inl h1
            · exact Or.inr (Or.inl h1)
        | some i =>
          cases hti : s.tasks[i]? with
          | none =>
            rw [applyStep_reject_pending_notask s 0 i hh0 hidx hti]
            refine ⟨hcalls, ⟨.rejected, JsMap.get_set_self s.handles 0 _⟩, ?_, ?_⟩
            · intro h1 hne
              rw [JsMap.get_set_ne s.handles 0 h1 _ hne]
              exact hhh h1 hne
            · intro t1 htm1
              rcases hnew t1 htm1 with h1 | h1
              · exact Or.inl h1
              · exact Or.inr (Or.inl h1)
          | some t =>
            rw [applyStep_reject_pending s 0 i t hh0 hidx hti]
            refine ⟨hcalls, ⟨.rejected, JsMap.get_set_self s.handles 0 _⟩, ?_, ?_⟩
            · intro h1 hne
              rw [JsMap.get_set_ne s.handles 0 h1 _ hne]
              exact hhh h1 hne
            · intro t1 htm1
              rcases List.mem_or_eq_of_mem_set htm1 with hm | he
              · rcases hnew t1 hm with h1 | h1
                · exact Or.inl h1
                · exact Or.inr (Or.inl h1)
              · rw [he]
                exact Or.inr (Or.inr (Or.inr
                  ⟨rfl, JsMap.get_set_self s.handles 0 _⟩))
      | resolved r1 =>
        rw [applyStep_reject_resolved s 0 r1 hh0]
        exact ⟨hcalls, ⟨.resolved r1, hh0⟩, hhh, hph⟩
      | rejected =>
        rw [applyStep_reject_rejected s 0 hh0]
        exact ⟨hcalls, ⟨.rejected, hh0⟩, hhh, hph⟩
    · rw [applyStep_reject_no_handle s h (hhh h hzero)]
      exact ⟨hcalls, ⟨st0, hh0⟩, hhh, hph⟩

theorem coalesceInv2_trace (tr : List MStep) :
    ∀ (s : MState), CoalesceInv2 s → CoalesceInv2 (applyTrace s tr) := by
  induction tr with
  | nil =>
    intro s hinv
    exact hinv
  | cons st tr ih =>
    intro s hinv
    exact ih (applyStep s st) (coalesceInv2_step s st hinv)

theorem coalesceInv1_to_inv2 (sid p : String) (s : MState)
    (hinv : CoalesceInv1 sid p s) (hn : s.tasks ≠ [])
    (hns : ∀ t ∈ s.tasks, t.phase ≠ .start) : CoalesceInv2 s := by
  obtain ⟨htask, hcase⟩ := hinv
  rcases hcase with ⟨_, _, _, _, hstart⟩ |
    ⟨sd, hsd, hc, hif, hh0, hhh, hnext, hcalls, hph⟩
  · obtain ⟨t, htmem⟩ := List.exists_mem_of_ne_nil s.tasks hn
    exact absurd (hstart t htmem) (hns t htmem)
  · refine ⟨hcalls, ⟨.pending, hh0⟩, hhh, ?_⟩
    intro t htmem
    rcases hph t htmem with h | h | h
    · exact absurd h (hns t htmem)
    · exact Or.inl h
    · exact Or.inr (Or.inl h)

theorem applyStep_tasks_length (s : MState) (st : MStep) :
    (applyStep s st).tasks.length = s.tasks.length := by
  cases st with
  | tick d => rfl
  | run i =>
    cases hti : s.tasks[i]? with
    | none => rw [applyStep_run_none s i hti]
    | some t =>
      cases hph : t.phase with
      | start =>
        rcases hpro : handlerPrologue s.g t.sid t.prompt s.nextHandle s.now with
          ⟨out, g1⟩
        cases out with
        | cacheHit r => simp [applyStep, hti, hph, hpro]
        | awaitInFlight h0 => simp [applyStep, hti, hph, hpro]
        | registered h0 => simp [applyStep, hti, hph, hpro]
      | awaiting h0 =>
        cases hh : s.handles.get h0 with
        | none => simp [applyStep, hti, hph, hh]
        | some st0 => cases st0 <;> simp [applyStep, hti, hph, hh]
      | calling h0 => simp [applyStep, hti, hph]
      | doneOk r => simp [applyStep, hti, hph]
      | doneErr => simp [applyStep, hti, hph]
  | resolve h r =>
    cases hh : s.handles.get h with
    | none => simp [applyStep, hh]
    | some st0 =>
      cases st0 with
      | pending =>
        cases hidx : s.tasks.findIdx? (fun t1 => t1.phase = .calling h) with
        | none => simp [applyStep, hh, hidx]
        | some i =>
          cases hti : s.tasks[i]? with
          | none => simp [applyStep, hh, hidx, hti]
          | some t => simp [applyStep, hh, hidx, hti]
      | resolved r1 => simp [applyStep, hh]
      | rejected => simp [applyStep, hh]
  | reject h =>
    cases hh : s.handles.get h with
    | none => simp [applyStep, hh]
    | some st0 =>
      cases st0 with
      | pending =>
        cases hidx : s.tasks.findIdx? (fun t1 => t1.phase = .calling h) with
        | none => simp [applyStep, hh, hidx]
        | some i =>
          cases hti : s.tasks[i]? with
          | none => simp [applyStep, hh, hidx, hti]
          | some t => simp [applyStep, hh, hidx, hti]
      | resolved r1 => simp [applyStep, hh]
      | rejected => simp [applyStep, hh]

theorem applyTrace_tasks_length (tr : List MStep) :
    ∀ (s : MState), (applyTrace s tr).tasks.length = s.tasks.length := by
  induction tr with
  | nil => intro s; rfl
  | cons st tr ih =>
    intro s
    rw [show applyTrace s (st :: tr) = applyTrace (applyStep s st) tr from rfl,
      ih (applyStep s st), applyStep_tasks_length]

/-- C1: for `n ≥ 1` concurrent submissions of the same (conversation, text)
pair against a fresh server, if every submission runs its synchronous
prologue (miss check plus in-flight registration, one atomic step exactly
as in the source, which has no suspension point between the two) before the
first settlement event, then over any continuation of the schedule exactly
one upstream analyze call is ever issued, and any two tasks that complete
successfully carry the identical outcome. -/
theorem c1_coalescing_single_upstream (n : Nat) (sid p : String)
    (t1 t2 : List MStep) (hn : 1 ≤ n) (hns : noSettle t1)
    (hstarted : ∀ t ∈ (applyTrace (initMState n sid p) t1).tasks, t.phase ≠ .start) :
    (applyTrace (applyTrace (initMState n sid p) t1) t2).upstreamCalls = 1 ∧
    (∀ t ∈ (applyTrace (applyTrace (initMState n sid p) t1) t2).tasks,
      ∀ t' ∈ (applyTrace (applyTrace (initMState n sid p) t1) t2).tasks,
      ∀ r r', t.phase = .doneOk r → t'.phase = .doneOk r' → r = r') := by
  have hinv1 := coalesceInv1_trace sid p t1 (initMState n sid p) hns
    (coalesceInv1_init n sid p)
  have hlen : (applyTrace (initMState n sid p) t1).tasks.length = n := by
    rw [applyTrace_tasks_length]
    simp [initMState]
  have hne : (applyTrace (initMState n sid p) t1).tasks ≠ [] := by
    intro hnil
    rw [hnil] at hlen
    simp at hlen
    omega
  have hinv2 := coalesceInv2_trace t2 (applyTrace (initMState n sid p) t1)
    (coalesceInv1_to_inv2 sid p _ hinv1 hne hstarted)
  refine ⟨hinv2.1, ?_⟩
  intro t htm t' htm' r r' hdone hdone'
  rcases hinv2.2.2.2 t htm with h1 | h1 | ⟨r0, hp1, hres⟩ | ⟨hp1, _⟩
  · rw [hdone] at h1
    cases h1
  · rw [hdone] at h1
    cases h1
  · rcases hinv2.2.2.2 t' htm' with h2 | h2 | ⟨r0', hp2, hres'⟩ | ⟨hp2, _⟩
    · rw [hdone'] at h2
      cases h2
    · rw [hdone'] at h2
      cases h2
    · rw [hdone] at hp1
      rw [hdone'] at hp2
      injection hp1 with e1
      injection hp2 with e2
      rw [hres] at hres'
      injection hres' with e3
      injection e3 with e4
      rw [e1, e2]
      exact e4
    · rw [hdone'] at hp2
      cases hp2
  · rw [hdone] at hp1
    cases hp1

/-- C1 witness: two concurrent submissions of the same prompt; the second
finds the in-flight handle, both await it, and after it resolves both are
done with the identical outcome, with exactly one upstream call. -/
theorem c1_coalescing_single_upstream_witness :
    (applyTrace (applyTrace (initMState 2 "s" "p") [.run 0, .run 1])
      [.resolve 0 ⟨false, false, none, "ok", none, false, "p"⟩,
        .run 1]).upstreamCalls = 1 ∧
    (applyTrace (applyTrace (initMState 2 "s" "p") [.run 0, .run 1])
      [.resolve 0 ⟨false, false, none, "ok", none, false, "p"⟩, .run 1]).tasks.map
        (fun t => t.phase)
      = [.doneOk ⟨false, false, none, "ok", none, false, "p"⟩,
         .doneOk ⟨false, false, none, "ok", none, false, "p"⟩] :=
  ⟨(c1_coalescing_single_upstream 2 "s" "p" [.run 0, .run 1]
      [.resolve 0 ⟨false, false, none, "ok", none, false, "p"⟩, .run 1]
      (by decide) (by unfold noSettle; decide) (by decide)).1,
   by decide⟩

end Lingo
